import Mathlib

/-!
# frontend-gray: a shallow embedding of `main.go`

Source: `plugins/wasm-go/extensions/frontend-gray/main.go`.

Go strings are embedded as `String` (so the byte strings covered are the valid
UTF-8 ones; the markers the handlers search for are ASCII); every string primitive
is defined on the underlying character list so that it can be evaluated and
reasoned about. The handlers are functions on an explicit host state (`Host`); a
Go panic (failed type assertion, index out of range) is the result `none`.
-/

namespace FrontendGray

/-! ## Go string primitives (`strings`, `fmt`) -/

/-- Scanning loop of `strings.Replace(s, old, new, -1)` for a non-empty `old`:
the first argument counts the characters of a match that are still to be skipped. -/
def replaceAux (old new : List Char) : Nat → List Char → List Char
  | _, [] => []
  | k + 1, _ :: cs => replaceAux old new k cs
  | 0, c :: cs =>
    if old.isPrefixOf (c :: cs) then new ++ replaceAux old new (old.length - 1) cs
    else c :: replaceAux old new 0 cs

/-- Character-list form of `strings.ReplaceAll`: non-overlapping occurrences of `old`,
found left to right, are replaced by `new`; an empty `old` matches before every
character and at the end. -/
def replaceAllL (old new s : List Char) : List Char :=
  match old with
  | [] => new ++ s.flatMap (fun c => c :: new)
  | _ :: _ => replaceAux old new 0 s

/-- Go `strings.ReplaceAll(s, old, new)`. -/
def replaceAll (s old new : String) : String :=
  ⟨replaceAllL old.data new.data s.data⟩

/-- Go `strings.HasPrefix(s, p)`. -/
def hasPrefix (s p : String) : Bool :=
  p.data.isPrefixOf s.data

/-- Go `strings.Join(xs, sep)`. -/
def join (xs : List String) (sep : String) : String :=
  match xs with
  | [] => ""
  | x :: rest => rest.foldl (fun acc y => acc ++ sep ++ y) x

/-- ASCII lower-casing of a header name (Envoy compares header names in lower case). -/
def lower (s : String) : String :=
  ⟨s.data.map Char.toLower⟩

/-! ## Configuration (`config.GrayConfig`), as far as `main.go` reads it -/

/-- A `config.Deployment`. `main.go` reads `Version` and `BackendVersion`; the other
fields are those of the data model (weight, matching values, base marker) and are
read by the `util` selectors only. -/
structure Deployment where
  Version : String
  BackendVersion : String
  Weight : Nat
  GrayKeyValues : List String
  IsBase : Bool
  deriving DecidableEq, Repr

/-- The zero value `config.Deployment{}` that line 59 allocates. -/
def emptyDeployment : Deployment :=
  { Version := "", BackendVersion := "", Weight := 0, GrayKeyValues := [], IsBase := false }

/-- The `config.Rewrite` record. The two routing tables are Go maps from a path
prefix to a template; `main.go` only takes their `len`. -/
structure Rewrite where
  Host : String
  NotFound : String
  Index : List (String × String)
  File : List (String × String)
  deriving DecidableEq, Repr

/-- The `config.BodyInjection` record. -/
structure BodyInjection where
  First : List String
  Last : List String
  deriving DecidableEq, Repr

/-- The `config.Injection` record. -/
structure Injection where
  Head : List String
  Body : BodyInjection
  deriving DecidableEq, Repr

/-- The `config.GrayConfig` record. `Rewrite`, `Injection` and `Injection.Body` are
pointers that the configuration loader always allocates; they are embedded as
plain records. `Deployments` is read by the `util` helpers only. -/
structure GrayConfig where
  UserStickyMaxAge : String
  TotalGrayWeight : Int
  GrayKey : String
  GraySubKey : String
  BackendGrayTag : String
  Rewrite : Rewrite
  Injection : Injection
  Deployments : List Deployment
  deriving DecidableEq, Repr

/-- The context keys of package `config` that `main.go` refers to (`XPreHigressTag` is
also the name of the sticky cookie); the package is not part of the source at hand,
so they are parameters of the embedding. -/
structure Consts where
  XPreHigressTag : String
  IsPageRequest : String
  XUniqueClientId : String
  IsNotFound : String
  deriving DecidableEq, Repr

/-- Modelled from the spec: the constant `config.XHigressTag` is not part of the source
at hand; the external-interfaces section names the request header that carries the
assigned version `X-Higress-Tag`. -/
def XHigressTag : String := "x-higress-tag"

/-! ## Host state: headers, per-request context, response body -/

/-- A header list as the host hands it over: `(name, value)` pairs in order. -/
abbrev Headers := List (String × String)

/-- Host primitive `proxywasm.GetHttp{Request,Response}Header`: the first value stored
under the name, compared in lower case; `none` is the SDK's not-found error. -/
def getHeader (hs : Headers) (k : String) : Option String :=
  (hs.find? (fun e => lower e.1 == lower k)).map Prod.snd

/-- Host primitive `proxywasm.RemoveHttp{Request,Response}Header`. -/
def removeHeader (hs : Headers) (k : String) : Headers :=
  hs.filter (fun e => lower e.1 != lower k)

/-- Host primitive `proxywasm.AddHttp{Request,Response}Header`. -/
def addHeader (hs : Headers) (k v : String) : Headers :=
  hs ++ [(k, v)]

/-- Host primitive `proxywasm.ReplaceHttp{Request,Response}Header`: the values stored
under the name are dropped and the new one is added (Envoy's `setCopy`). The position
of the pair in the list and the spelling of the stored name are not part of what the
handlers can observe through `getHeader`, which compares names in lower case. -/
def replaceHeader (hs : Headers) (k v : String) : Headers :=
  addHeader (removeHeader hs k) k v

/-- A value of the untyped per-request bag of `wrapper.HttpContext`. -/
inductive Val where
  | str (s : String)
  | bool (b : Bool)
  deriving DecidableEq, Repr

/-- The per-request bag: the most recent binding of a key comes first. -/
abbrev Ctx := List (String × Val)

/-- Method `ctx.SetContext(key, value)`. -/
def setContext (c : Ctx) (k : String) (v : Val) : Ctx :=
  (k, v) :: c

/-- Method `ctx.GetContext(key)`; `none` is Go's `nil`. -/
def getContext (c : Ctx) (k : String) : Option Val :=
  List.lookup k c

/-- The comma-ok assertion `ctx.GetContext(key).(bool)` followed by the default `false`. -/
def ctxBool (c : Ctx) (k : String) : Bool :=
  match getContext c k with
  | some (Val.bool b) => b
  | _ => false

/-- The plain assertion `ctx.GetContext(key).(string)`; `none` is the panic. -/
def ctxString (c : Ctx) (k : String) : Option String :=
  match getContext c k with
  | some (Val.str s) => some s
  | _ => none

/-- A Go `map[string][]string` of headers, as built by `util.ConvertHeaders`. -/
abbrev HeaderMap := List (String × List String)

/-- The statement pair `if _, ok := m[k]; !ok { m[k] = []string{v} } else { m[k][0] = v }`;
`none` is the index-out-of-range panic on an empty slice. -/
def setFirstValue (m : HeaderMap) (k v : String) : Option HeaderMap :=
  match List.lookup k m with
  | none => some (m ++ [(k, [v])])
  | some [] => none
  | some (_ :: rest) => some (m.map (fun e => if e.1 == k then (k, v :: rest) else e))

/-- Go `delete(m, k)`. -/
def deleteKey (m : HeaderMap) (k : String) : HeaderMap :=
  m.filter (fun e => e.1 != k)

/-- `types.Action`. -/
inductive Action where
  | Continue
  | Pause
  deriving DecidableEq, Repr

/-- A subrequest handed to `wrapper.NewClusterClient(...).Get`. -/
structure HttpCall where
  host : String
  method : String
  path : String
  timeoutMs : Nat
  deriving DecidableEq, Repr

/-- A lookup that the request handler performs only on some paths. -/
inductive Consult where
  | xForwardedFor
  | filterGrayWeight
  | filterGrayRule
  | getVersion
  deriving DecidableEq, Repr

/-- Everything a handler can read or change. `bufferBody` is `some true` after
`ctx.BufferResponseBody()` and `some false` after `ctx.DontReadResponseBody()`;
`resumes` counts `proxywasm.ResumeHttpResponse()`; `consulted` lists, in order, the
selector calls and the `X-Forwarded-For` read made by the request handler. -/
structure Host where
  reqHeaders : Headers
  respHeaders : Headers
  respBody : String
  ctx : Ctx
  rerouteDisabled : Bool
  bufferBody : Option Bool
  calls : List HttpCall
  resumes : Nat
  consulted : List Consult
  deriving DecidableEq, Repr

/-! ## Package `util`

The helpers of package `util` are not part of the source at hand; the handlers
take them as parameters. -/

/-- The functions of package `util` that `main.go` calls. -/
structure Util where
  IsGrayEnabled : GrayConfig → Bool
  IsBackendGrayEnabled : GrayConfig → Bool
  IsPageRequest : String → String → Bool
  ExtractCookieValueByKey : String → String → String
  GetGrayKey : String → String → String → String
  GetXPreHigressVersion : String → String × String
  GetRealIpFromXff : String → String
  FilterGrayWeight : GrayConfig → String → String → String → Deployment
  FilterGrayRule : GrayConfig → String → Deployment
  GetVersion : GrayConfig → Deployment → String → Bool → Deployment
  IndexRewrite : String → String → List (String × String) → String
  PrefixFileRewrite : String → String → List (String × String) → String
  ConvertHeaders : Headers → HeaderMap
  ReconvertHeaders : HeaderMap → Headers

/-- Modelled from the spec: `util.IndexRewrite` and `util.PrefixFileRewrite` are not part of
the source at hand; the path rewriter's contract is that, if no rewrite rule is
configured for the applicable kind, the original path passes through unchanged. -/
def rewritersPassThrough (U : Util) : Prop :=
  (∀ path version, U.IndexRewrite path version [] = path)
    ∧ (∀ path version, U.PrefixFileRewrite path version [] = path)

/-! ## The handlers of `main.go` -/

/-- What lines 40-49 and 61-67 read from the request: the resolved gray-key value,
the previous sticky pair, the client id, and whether `X-Forwarded-For` was read. -/
structure SelectorInputs where
  grayKeyValue : String
  preVersion : String
  preUniqueClientId : String
  uniqueClientId : String
  consulted : List Consult
  deriving DecidableEq, Repr

/-- Lines 40, 46-49 and 61-67. The gray-key header is read before lines 57-58 remove
`Accept-Encoding` and `Content-Length`, `X-Forwarded-For` after them. -/
def selectorInputs (U : Util) (grayConfig : GrayConfig) (reqHeaders : Headers) :
    SelectorInputs :=
  let cookies := (getHeader reqHeaders "cookie").getD ""
  let grayKeyValueByCookie := U.ExtractCookieValueByKey cookies grayConfig.GrayKey
  let grayKeyValueByHeader := (getHeader reqHeaders grayConfig.GrayKey).getD ""
  let grayKeyValue :=
    U.GetGrayKey grayKeyValueByCookie grayKeyValueByHeader grayConfig.GraySubKey
  let reqHeaders2 :=
    removeHeader (removeHeader reqHeaders "Accept-Encoding") "Content-Length"
  let pre := U.GetXPreHigressVersion cookies
  if grayKeyValue == "" then
    let xForwardedFor := (getHeader reqHeaders2 "X-Forwarded-For").getD ""
    { grayKeyValue := grayKeyValue, preVersion := pre.1, preUniqueClientId := pre.2,
      uniqueClientId := U.GetRealIpFromXff xForwardedFor,
      consulted := [Consult.xForwardedFor] }
  else
    { grayKeyValue := grayKeyValue, preVersion := pre.1, preUniqueClientId := pre.2,
      uniqueClientId := grayKeyValue, consulted := [] }

/-- Lines 59 and 69-80: the deployment the request is routed to, with the log of
the selector that produced it. -/
def selectDeployment (U : Util) (grayConfig : GrayConfig) (isPageRequest : Bool)
    (grayKeyValue preVersion preUniqueClientId uniqueClientId : String) :
    Deployment × List Consult :=
  let deployment : Deployment := emptyDeployment
  if isPageRequest then
    if grayConfig.TotalGrayWeight > 0 then
      (U.FilterGrayWeight grayConfig preVersion preUniqueClientId uniqueClientId,
        [Consult.filterGrayWeight])
    else
      (U.FilterGrayRule grayConfig grayKeyValue, [Consult.filterGrayRule])
  else
    (U.GetVersion grayConfig deployment preVersion isPageRequest, [Consult.getVersion])

/-- Function `onHttpRequestHeaders` (lines 35-105). -/
def onHttpRequestHeaders (U : Util) (K : Consts) (grayConfig : GrayConfig) (h : Host) :
    Host × Action :=
  if !U.IsGrayEnabled grayConfig then (h, Action.Continue) else
  let path := (getHeader h.reqHeaders ":path").getD ""
  let fetchMode := (getHeader h.reqHeaders "sec-fetch-mode").getD ""
  let isPageRequest := U.IsPageRequest fetchMode path
  let hasRewrite :=
    decide (grayConfig.Rewrite.File.length > 0) || decide (grayConfig.Rewrite.Index.length > 0)
  let inp := selectorInputs U grayConfig h.reqHeaders
  let h1 : Host := if hasRewrite then { h with rerouteDisabled := true } else h
  let h2 : Host :=
    { h1 with reqHeaders :=
        removeHeader (removeHeader h1.reqHeaders "Accept-Encoding") "Content-Length" }
  let sel := selectDeployment U grayConfig isPageRequest inp.grayKeyValue inp.preVersion
    inp.preUniqueClientId inp.uniqueClientId
  let deployment := sel.1
  let h3 : Host :=
    { h2 with
      consulted := h2.consulted ++ inp.consulted ++ sel.2
      reqHeaders := addHeader h2.reqHeaders XHigressTag deployment.Version }
  let c1 := setContext h3.ctx K.XPreHigressTag (Val.str deployment.Version)
  let c2 := setContext c1 grayConfig.BackendGrayTag (Val.str deployment.BackendVersion)
  let c3 := setContext c2 K.IsPageRequest (Val.bool isPageRequest)
  let c4 := setContext c3 K.XUniqueClientId (Val.str inp.uniqueClientId)
  let h4 : Host := { h3 with ctx := c4 }
  let rewrite := grayConfig.Rewrite
  let h5 : Host :=
    if rewrite.Host != "" then
      { h4 with reqHeaders := replaceHeader h4.reqHeaders "HOST" rewrite.Host }
    else h4
  if hasRewrite then
    let rewritePath :=
      if isPageRequest then U.IndexRewrite path deployment.Version grayConfig.Rewrite.Index
      else U.PrefixFileRewrite path deployment.Version grayConfig.Rewrite.File
    ({ h5 with reqHeaders := replaceHeader h5.reqHeaders ":path" rewritePath }, Action.Continue)
  else (h5, Action.Continue)

/-- Lines 125-148 of `onHttpResponseHeader`: the branch taken for a `404` status. -/
def notFoundHeaders (U : Util) (K : Consts) (grayConfig : GrayConfig) (isPageRequest : Bool)
    (h : Host) : Option (Host × Action) :=
  if grayConfig.Rewrite.NotFound != "" && isPageRequest then
    let h1 : Host := { h with ctx := setContext h.ctx K.IsNotFound (Val.bool true) }
    let headersMap := U.ConvertHeaders h1.respHeaders
    match setFirstValue headersMap ":status" "200" with
    | none => none
    | some m1 =>
      match setFirstValue m1 "content-type" "text/html" with
      | none => none
      | some m2 =>
        some ({ h1 with
                respHeaders := U.ReconvertHeaders (deleteKey m2 "content-length")
                bufferBody := some true }, Action.Continue)
  else
    some ({ h with bufferBody := some false }, Action.Continue)

/-- Lines 156-172 of `onHttpResponseHeader`: the sticky cookies of a `200` response. -/
def stickyCookies (U : Util) (K : Consts) (grayConfig : GrayConfig) (h : Host) :
    Option (Host × Action) :=
  let h1 : Host :=
    { h with
      bufferBody := some true
      respHeaders := replaceHeader h.respHeaders "Cache-Control" "no-cache, no-store" }
  match ctxString h1.ctx K.XPreHigressTag with
  | none => none
  | some frontendVersion =>
    match ctxString h1.ctx K.XUniqueClientId with
    | none => none
    | some xUniqueClient =>
      let frontendCookie := K.XPreHigressTag ++ "=" ++ frontendVersion ++ "," ++ xUniqueClient
        ++ "; Max-Age=" ++ grayConfig.UserStickyMaxAge ++ "; Path=/;"
      let h2 : Host := { h1 with respHeaders := addHeader h1.respHeaders "Set-Cookie" frontendCookie }
      if U.IsBackendGrayEnabled grayConfig then
        match ctxString h2.ctx grayConfig.BackendGrayTag with
        | none => none
        | some backendVersion =>
          let backendCookie := grayConfig.BackendGrayTag ++ "=" ++ backendVersion
            ++ "; Max-Age=" ++ grayConfig.UserStickyMaxAge ++ "; Path=/;"
          some ({ h2 with respHeaders := addHeader h2.respHeaders "Set-Cookie" backendCookie },
            Action.Continue)
      else some (h2, Action.Continue)

/-- Function `onHttpResponseHeader` (lines 107-174). -/
def onHttpResponseHeader (U : Util) (K : Consts) (grayConfig : GrayConfig) (h : Host) :
    Option (Host × Action) :=
  if !U.IsGrayEnabled grayConfig then some (h, Action.Continue) else
  let statusR := getHeader h.respHeaders ":status"
  let status := statusR.getD ""
  let contentType := (getHeader h.respHeaders "Content-Type").getD ""
  let h1 : Host :=
    if grayConfig.Rewrite.Host != "" then
      { h with respHeaders := removeHeader h.respHeaders "Content-Disposition" }
    else h
  let isPageRequest := ctxBool h1.ctx K.IsPageRequest
  if statusR.isNone || status != "200" then
    if status == "404" then notFoundHeaders U K grayConfig isPageRequest h1
    else some (h1, Action.Continue)
  else
    let h2 : Host := { h1 with respHeaders := removeHeader h1.respHeaders "Content-Length" }
    if hasPrefix contentType "text/html" || isPageRequest then
      stickyCookies U K grayConfig h2
    else some (h2, Action.Continue)

/-- Lines 206-220 of `onHttpResponseBody`: the three replacements on the page body. -/
def injectBody (grayConfig : GrayConfig) (body : String) : String :=
  let headInjection := join grayConfig.Injection.Head "\n"
  let bodyFirstInjection := join grayConfig.Injection.Body.First "\n"
  let bodyLastInjection := join grayConfig.Injection.Body.Last "\n"
  let content := body
  let content := replaceAll content "</head>" (headInjection ++ "\n</head>")
  let content := replaceAll content "<body>" ("<body>\n" ++ bodyFirstInjection)
  let content := replaceAll content "</body>" (bodyLastInjection ++ "\n</body>")
  content

/-- Function `onHttpResponseBody` (lines 176-230); `body` is the buffered body the
host passes in. -/
def onHttpResponseBody (U : Util) (K : Consts) (grayConfig : GrayConfig) (body : String)
    (h : Host) : Option (Host × Action) :=
  if !U.IsGrayEnabled grayConfig then some (h, Action.Continue) else
  let isPageRequest := ctxBool h.ctx K.IsPageRequest
  match ctxString h.ctx K.XPreHigressTag with
  | none => none
  | some frontendVersion =>
    let isNotFound := ctxBool h.ctx K.IsNotFound
    if isPageRequest && isNotFound && grayConfig.Rewrite.Host != ""
        && grayConfig.Rewrite.NotFound != "" then
      some ({ h with calls := h.calls ++
                [{ host := grayConfig.Rewrite.Host, method := "GET",
                   path := replaceAll grayConfig.Rewrite.NotFound "\x7bversion\x7d" frontendVersion,
                   timeoutMs := 1500 }] }, Action.Pause)
    else if isPageRequest then
      some ({ h with respBody := injectBody grayConfig body }, Action.Continue)
    else some (h, Action.Continue)

/-- The completion callback passed to `client.Get` (lines 194-197). -/
def notFoundCallback (_statusCode : Int) (_responseHeaders : Headers) (responseBody : String)
    (h : Host) : Host :=
  { h with respBody := responseBody, resumes := h.resumes + 1 }

/-! ## Specification-side notions for the response injector -/

/-- Go `strings.Cut` on character lists: the text before and after the first
occurrence of `m`, or `none` when `m` does not occur. -/
def cutFirst (m : List Char) : List Char → Option (List Char × List Char)
  | [] => if m.isEmpty then some ([], []) else none
  | c :: cs =>
    if m.isPrefixOf (c :: cs) then some ([], (c :: cs).drop m.length)
    else (cutFirst m cs).map (fun p => (c :: p.1, p.2))

/-- Number of positions of a character list at which `m` occurs. -/
def occurrencesL (m : List Char) : List Char → Nat
  | [] => if m.isEmpty then 1 else 0
  | c :: cs => (if m.isPrefixOf (c :: cs) then 1 else 0) + occurrencesL m cs

/-- Number of occurrences of `marker` in `s`. -/
def occurrences (s marker : String) : Nat :=
  occurrencesL marker.data s.data

/-- The injector's contract for one marker, in the words of the specification: `ins` is
inserted immediately before the first occurrence of `marker`; a body without the
marker is left as it is. -/
def insertBeforeFirst (s marker ins : String) : String :=
  match cutFirst marker.data s.data with
  | none => s
  | some (a, b) => ⟨a ++ ins.data ++ marker.data ++ b⟩

/-- The injector's contract for one marker, in the words of the specification: `ins` is
inserted immediately after the first occurrence of `marker`; a body without the
marker is left as it is. -/
def insertAfterFirst (s marker ins : String) : String :=
  match cutFirst marker.data s.data with
  | none => s
  | some (a, b) => ⟨a ++ marker.data ++ ins.data ++ b⟩

/-- The response injector as the specification words it: each fragment group, joined by
newlines, goes to the first occurrence of its marker. -/
def injectAtFirst (grayConfig : GrayConfig) (body : String) : String :=
  let s1 := insertBeforeFirst body "</head>" (join grayConfig.Injection.Head "\n" ++ "\n")
  let s2 := insertAfterFirst s1 "<body>" ("\n" ++ join grayConfig.Injection.Body.First "\n")
  insertBeforeFirst s2 "</body>" (join grayConfig.Injection.Body.Last "\n" ++ "\n")

/-- Insertion of `before` ahead of and `after` behind every occurrence of `m`, found
left to right, the search resuming behind each occurrence; the first argument
bounds the number of occurrences treated. -/
def insertEveryL (m before after : List Char) : Nat → List Char → List Char
  | 0, s => s
  | n + 1, s =>
    match cutFirst m s with
    | none => s
    | some (a, b) => a ++ before ++ m ++ after ++ insertEveryL m before after n b

/-- Insertion of `before` ahead of and `after` behind every occurrence of `marker` in `s`. -/
def insertAtEvery (s marker before after : String) : String :=
  ⟨insertEveryL marker.data before.data after.data s.data.length s.data⟩

/-- The response injector with every occurrence of a marker as an insertion point. -/
def injectAtEvery (grayConfig : GrayConfig) (body : String) : String :=
  let s1 := insertAtEvery body "</head>" (join grayConfig.Injection.Head "\n" ++ "\n") ""
  let s2 := insertAtEvery s1 "<body>" "" ("\n" ++ join grayConfig.Injection.Body.First "\n")
  insertAtEvery s2 "</body>" (join grayConfig.Injection.Body.Last "\n" ++ "\n") ""

/-- The three markers of the response injector. -/
def markers : List String := ["</head>", "<body>", "</body>"]

/-- No configured fragment contains one of the three markers. -/
def fragmentsMarkerFree (grayConfig : GrayConfig) : Prop :=
  ∀ f ∈ grayConfig.Injection.Head ++ grayConfig.Injection.Body.First
      ++ grayConfig.Injection.Body.Last, ∀ m ∈ markers, occurrences f m = 0

/-- The branch of `onHttpResponseBody` at line 191 is open for the request: the
not-found flag is set and both the fallback host and the fallback path are configured. -/
def inFallback (K : Consts) (grayConfig : GrayConfig) (h : Host) : Bool :=
  ctxBool h.ctx K.IsNotFound && grayConfig.Rewrite.Host != ""
    && grayConfig.Rewrite.NotFound != ""

instance (grayConfig : GrayConfig) : Decidable (fragmentsMarkerFree grayConfig) := by
  unfold fragmentsMarkerFree
  infer_instance

/-! ## The response injector as one pass over the input body -/

/-- The marker `</head>` as a character list. -/
def headClose : List Char := ['<', '/', 'h', 'e', 'a', 'd', '>']

/-- The marker `<body>` as a character list. -/
def bodyOpen : List Char := ['<', 'b', 'o', 'd', 'y', '>']

/-- The marker `</body>` as a character list. -/
def bodyClose : List Char := ['<', '/', 'b', 'o', 'd', 'y', '>']

/-- One pass over the input body: wherever one of the three markers starts, its
fragment group is written at the marker (head group and a newline before `</head>`,
a newline and the body-first group after `<body>`, body-last group and a newline
before `</body>`) and the pass resumes behind the marker; every other character is
copied. The first argument counts marker characters still to be skipped. -/
def injectScan (hd bf bl : List Char) : Nat → List Char → List Char
  | _, [] => []
  | k + 1, _ :: cs => injectScan hd bf bl k cs
  | 0, c :: cs =>
    if headClose.isPrefixOf (c :: cs) then
      hd ++ '\n' :: headClose ++ injectScan hd bf bl 6 cs
    else if bodyOpen.isPrefixOf (c :: cs) then
      bodyOpen ++ '\n' :: bf ++ injectScan hd bf bl 5 cs
    else if bodyClose.isPrefixOf (c :: cs) then
      bl ++ '\n' :: bodyClose ++ injectScan hd bf bl 6 cs
    else c :: injectScan hd bf bl 0 cs

/-- Character-list form of the three replacements of lines 218-220. -/
def injectStagesL (hd bf bl s : List Char) : List Char :=
  replaceAux bodyClose (bl ++ '\n' :: bodyClose) 0
    (replaceAux bodyOpen (bodyOpen ++ '\n' :: bf) 0
      (replaceAux headClose (hd ++ '\n' :: headClose) 0 s))

/-- The head group forms no marker where the later replacements look: it contains
neither `<body>` nor `</body>` and is empty or starts with `<`. -/
def HeadGroupOk (g : List Char) : Prop :=
  occurrencesL bodyOpen g = 0 ∧ occurrencesL bodyClose g = 0
    ∧ (g = [] ∨ g.head? = some '<')

/-- The body-first group forms no marker where the last replacement looks: it does not
contain `</body>` and is empty or ends with `>`. -/
def FirstGroupOk (g : List Char) : Prop :=
  occurrencesL bodyClose g = 0 ∧ (g = [] ∨ g.getLast? = some '>')

/-- The start of a list is not inside a marker: the list is empty or starts with `<` or
with a newline. -/
def startsGuard (l : List Char) : Prop :=
  ∀ c ∈ l.head?, c = '<' ∨ c = '\n'

/-- The end of a list is not inside a marker: the list is empty or ends with `>` or
with a newline. -/
def endsGuard (l : List Char) : Prop :=
  ∀ c ∈ l.getLast?, c = '>' ∨ c = '\n'

/-- A pattern that starts with `<` and has no `<` and no newline behind it, and no `>`
and no newline before its last character. -/
def MarkerLike (m : List Char) : Prop :=
  ∃ m', m = '<' :: m' ∧ (∀ x ∈ m', x ≠ '<' ∧ x ≠ '\n')
    ∧ (∀ x ∈ m.dropLast, x ≠ '>' ∧ x ≠ '\n')

/-- The response injector as one pass over the input body: each fragment group, joined
by newlines, is written at every occurrence of its marker in the input body. -/
def injectAtMarkers (grayConfig : GrayConfig) (body : String) : String :=
  ⟨injectScan (join grayConfig.Injection.Head "\n").data
    (join grayConfig.Injection.Body.First "\n").data
    (join grayConfig.Injection.Body.Last "\n").data 0 body.data⟩

/-- The input body with a newline written at every marker: before every `</head>`,
after every `<body>` and before every `</body>`. -/
def newlineAtMarkers (body : String) : String :=
  ⟨injectScan [] [] [] 0 body.data⟩

/-- No insertion forms a marker where a later replacement looks: the joined head group
contains neither `<body>` nor `</body>` and is empty or starts with `<`, and the
joined body-first group does not contain `</body>` and is empty or ends with `>`. -/
def groupsSeamFree (grayConfig : GrayConfig) : Prop :=
  HeadGroupOk (join grayConfig.Injection.Head "\n").data
    ∧ FirstGroupOk (join grayConfig.Injection.Body.First "\n").data

instance (grayConfig : GrayConfig) : Decidable (groupsSeamFree grayConfig) := by
  unfold groupsSeamFree HeadGroupOk FirstGroupOk
  infer_instance

/-! ## A concrete `util` package, for evaluating the handlers on examples -/

/-- Pieces of a character list between the occurrences of the separator `c`. -/
def splitOnChar (c : Char) : List Char → List (List Char)
  | [] => [[]]
  | x :: xs =>
    match splitOnChar c xs with
    | [] => [[x]]
    | p :: ps => if x == c then [] :: p :: ps else (x :: p) :: ps

/-- A character list without its leading and trailing blanks. -/
def trimL (s : List Char) : List Char :=
  ((s.dropWhile (fun c => c == ' ')).reverse.dropWhile (fun c => c == ' ')).reverse

/-- The deployment marked base, or the empty deployment when none is. -/
def baseDeployment (grayConfig : GrayConfig) : Deployment :=
  (grayConfig.Deployments.find? (fun d => d.IsBase)).getD emptyDeployment

/-- Modelled from the spec: `util.IsGrayEnabled` is not part of the source at hand and the
specification gives no rule for it; routing is taken as enabled when the registry
holds a deployment. -/
def specIsGrayEnabled (grayConfig : GrayConfig) : Bool :=
  !grayConfig.Deployments.isEmpty

/-- Modelled from the spec: `util.IsBackendGrayEnabled` is not part of the source at hand;
the backend version is optional, and backend stickiness is on when some deployment
carries one. -/
def specIsBackendGrayEnabled (grayConfig : GrayConfig) : Bool :=
  grayConfig.Deployments.any (fun d => d.BackendVersion != "")

/-- Modelled from the spec: `util.IsPageRequest` is not part of the source at hand; a page
request is a top-level navigation request. -/
def specIsPageRequest (fetchMode _path : String) : Bool :=
  fetchMode == "navigate"

/-- Modelled from the spec: `util.ExtractCookieValueByKey` is not part of the source at
hand; the value stored under `key` in a `name=value; name=value` cookie header, empty
when the cookie is absent. -/
def specExtractCookieValueByKey (cookies key : String) : String :=
  match (splitOnChar ';' cookies.data).filterMap (fun kv =>
      match cutFirst ['='] (trimL kv) with
      | some (k, v) => if k == key.data then some v else none
      | none => none) with
  | v :: _ => ⟨v⟩
  | [] => ""

/-- Modelled from the spec: `util.GetGrayKey` is not part of the source at hand; the cookie
value is preferred over the header value. The sub-key lookup inside a structured
value is not modelled: the value is taken whole. -/
def specGetGrayKey (byCookie byHeader _graySubKey : String) : String :=
  if byCookie != "" then byCookie else byHeader

/-- Modelled from the spec: `util.GetXPreHigressVersion` is not part of the source at hand;
the sticky cookie has the form `version,clientId`. -/
def specGetXPreHigressVersion (K : Consts) (cookies : String) : String × String :=
  let v := specExtractCookieValueByKey cookies K.XPreHigressTag
  match cutFirst [','] v.data with
  | some (a, b) => (⟨a⟩, ⟨b⟩)
  | none => (v, "")

/-- Modelled from the spec: `util.GetRealIpFromXff` is not part of the source at hand; the
leftmost forwarded-address token with surrounding whitespace trimmed. -/
def specGetRealIpFromXff (xForwardedFor : String) : String :=
  match splitOnChar ',' xForwardedFor.data with
  | t :: _ => ⟨trimL t⟩
  | [] => ""

/-- A deterministic map from an identity to a number. -/
def identityHash (id : String) : Nat :=
  id.data.foldl (fun acc c => (acc * 31 + c.toNat) % 1000003) 0

/-- Walk of the deployment list accumulating weights until the scaled value falls
within a deployment's weight interval. -/
def weightedPick : List Deployment → Nat → Option Deployment
  | [], _ => none
  | d :: ds, n => if n < d.Weight then some d else weightedPick ds (n - d.Weight)

/-- Modelled from the spec: `util.FilterGrayWeight` is not part of the source at hand; a
returning client (same client id as in the sticky cookie) keeps its version while
that version is still in the registry, otherwise the identity is scaled into
`[0, totalGrayWeight)` and the deployment list is walked. -/
def specFilterGrayWeight (grayConfig : GrayConfig)
    (preVersion preUniqueClientId uniqueClientId : String) : Deployment :=
  let sticky :=
    if preVersion != "" && preUniqueClientId == uniqueClientId then
      grayConfig.Deployments.find? (fun d => d.Version == preVersion)
    else none
  match sticky with
  | some d => d
  | none =>
    (weightedPick grayConfig.Deployments
      (identityHash uniqueClientId % grayConfig.TotalGrayWeight.toNat)).getD
      (baseDeployment grayConfig)

/-- Modelled from the spec: `util.FilterGrayRule` is not part of the source at hand; the
first deployment, in configured order, that the gray-key value matches, else the
base deployment. -/
def specFilterGrayRule (grayConfig : GrayConfig) (grayKeyValue : String) : Deployment :=
  (grayConfig.Deployments.find? (fun d => d.GrayKeyValues.contains grayKeyValue)).getD
    (baseDeployment grayConfig)

/-- Modelled from the spec: `util.GetVersion` is not part of the source at hand; a
sub-resource request reuses the version recorded in the sticky cookie. -/
def specGetVersion (grayConfig : GrayConfig) (deployment : Deployment) (preVersion : String)
    (isPageRequest : Bool) : Deployment :=
  if isPageRequest then deployment
  else
    (grayConfig.Deployments.find? (fun d => d.Version == preVersion)).getD
      (baseDeployment grayConfig)

/-- Modelled from the spec: `util.IndexRewrite` is not part of the source at hand; the
version is substituted into the index template of the first rule whose key starts
the path, and without an applicable rule the path passes through unchanged. -/
def specIndexRewrite (path version : String) (rules : List (String × String)) : String :=
  match rules.find? (fun r => hasPrefix path r.1) with
  | some r => replaceAll r.2 "\x7bversion\x7d" version
  | none => path

/-- Modelled from the spec: `util.PrefixFileRewrite` is not part of the source at hand; the
version is substituted as a path prefix ahead of the file path unless the path
already carries it, and without an applicable rule the path passes through unchanged. -/
def specPrefixFileRewrite (path version : String) (rules : List (String × String)) : String :=
  match rules.find? (fun r => hasPrefix path r.1) with
  | some r =>
    let target := replaceAll r.2 "\x7bversion\x7d" version
    if hasPrefix path target then path
    else target ++ ⟨path.data.drop r.1.data.length⟩
  | none => path

/-- Modelled from the spec: `util.ConvertHeaders` is not part of the source at hand; header
collections are an ordered mapping from normalized header name to the sequence of
its values. -/
def specConvertHeaders (hs : Headers) : HeaderMap :=
  hs.foldl (fun m e =>
    match List.lookup (lower e.1) m with
    | none => m ++ [(lower e.1, [e.2])]
    | some _ => m.map (fun x => if x.1 == lower e.1 then (x.1, x.2 ++ [e.2]) else x)) []

/-- Modelled from the spec: `util.ReconvertHeaders` is not part of the source at hand; the
ordered mapping is flattened back into a header list. -/
def specReconvertHeaders (m : HeaderMap) : Headers :=
  m.flatMap (fun e => e.2.map (fun v => (e.1, v)))

/-- The concrete `util` package. -/
def specUtil (K : Consts) : Util :=
  { IsGrayEnabled := specIsGrayEnabled
    IsBackendGrayEnabled := specIsBackendGrayEnabled
    IsPageRequest := specIsPageRequest
    ExtractCookieValueByKey := specExtractCookieValueByKey
    GetGrayKey := specGetGrayKey
    GetXPreHigressVersion := specGetXPreHigressVersion K
    GetRealIpFromXff := specGetRealIpFromXff
    FilterGrayWeight := specFilterGrayWeight
    FilterGrayRule := specFilterGrayRule
    GetVersion := specGetVersion
    IndexRewrite := specIndexRewrite
    PrefixFileRewrite := specPrefixFileRewrite
    ConvertHeaders := specConvertHeaders
    ReconvertHeaders := specReconvertHeaders }

/-- A concrete choice of the context keys. -/
def sampleConsts : Consts :=
  { XPreHigressTag := "x-pre-higress-tag"
    IsPageRequest := "isPageRequest"
    XUniqueClientId := "x-unique-client-id"
    IsNotFound := "isNotFound" }

/-! ## Example configurations and requests -/

/-- The base deployment of the examples. -/
def depBase : Deployment :=
  { Version := "base", BackendVersion := "", Weight := 0, GrayKeyValues := [], IsBase := true }

/-- A gray deployment of the examples, matched by two user ids. -/
def depGray : Deployment :=
  { Version := "gray", BackendVersion := "b-gray", Weight := 0,
    GrayKeyValues := ["u1", "u2"], IsBase := false }

/-- A rule-mode configuration with the injection fragments `X`, `Y` and `Z`. -/
def cfgXYZ : GrayConfig :=
  { UserStickyMaxAge := "172800", TotalGrayWeight := 0, GrayKey := "userid",
    GraySubKey := "", BackendGrayTag := "x-mse-tag",
    Rewrite := { Host := "", NotFound := "", Index := [], File := [] },
    Injection := { Head := ["X"], Body := { First := ["Y"], Last := ["Z"] } },
    Deployments := [depBase, depGray] }

/-- A host state with nothing in it. -/
def emptyHost : Host :=
  { reqHeaders := [], respHeaders := [], respBody := "", ctx := [],
    rerouteDisabled := false, bufferBody := none, calls := [], resumes := 0,
    consulted := [] }

/-- The host state of a page request routed to version `base`, as the response body
handler meets it. -/
def pageHost : Host :=
  { emptyHost with
    ctx := [(sampleConsts.XUniqueClientId, Val.str "10.0.0.1"),
            (sampleConsts.IsPageRequest, Val.bool true),
            ("x-mse-tag", Val.str ""),
            (sampleConsts.XPreHigressTag, Val.str "base")]
    bufferBody := some true }

/-- The page of the injection example. -/
def pageXYZ : String := "<html><head></head><body></body></html>"

/-- A page whose text before the `</head>` marker ends in `<bod`. -/
def pageSeam : String := "<html><head><bod</head><body></body></html>"

/-- The configuration `cfgXYZ` with the head fragment `y>`. -/
def cfgSeam : GrayConfig :=
  { cfgXYZ with Injection := { Head := ["y>"], Body := { First := ["Y"], Last := ["Z"] } } }

/-- A page with two `<body>` and two `</body>` markers. -/
def pageTwice : String := "<html><head></head><body></body><body></body></html>"

/-- The configuration `cfgXYZ` without injection fragments. -/
def cfgNoFragments : GrayConfig :=
  { cfgXYZ with Injection := { Head := [], Body := { First := [], Last := [] } } }

/-- A gray deployment of the examples with a share of the weighted pool. -/
def depGrayWeighted : Deployment :=
  { Version := "gray", BackendVersion := "b-gray", Weight := 100,
    GrayKeyValues := [], IsBase := false }

/-- A weighted-mode configuration with rewrite rules for pages and files. -/
def cfgWeighted : GrayConfig :=
  { UserStickyMaxAge := "172800", TotalGrayWeight := 100, GrayKey := "userid",
    GraySubKey := "", BackendGrayTag := "x-mse-tag",
    Rewrite := { Host := "static.example.com", NotFound := "/\x7bversion\x7d/404.html",
                 Index := [("/", "/\x7bversion\x7d/index.html")],
                 File := [("/static", "/\x7bversion\x7d/static")] },
    Injection := { Head := [], Body := { First := [], Last := [] } },
    Deployments := [depBase, depGrayWeighted] }

/-- A navigation request of user `u1` for the path `/`. -/
def reqPage : Host :=
  { emptyHost with
    reqHeaders := [(":path", "/"), ("host", "www.example.com"), ("sec-fetch-mode", "navigate"),
                   ("cookie", "lang=en; userid=u1"), ("accept-encoding", "gzip"),
                   ("x-forwarded-for", "10.0.0.1, 172.16.0.9")] }

/-- A navigation request without cookie and gray-key header. -/
def reqAnonymousA : Host :=
  { emptyHost with
    reqHeaders := [(":path", "/"), ("sec-fetch-mode", "navigate"),
                   ("x-forwarded-for", "10.0.0.1, 172.16.0.9")] }

/-- Another request without cookie and gray-key header from the same forwarded address. -/
def reqAnonymousB : Host :=
  { emptyHost with
    reqHeaders := [(":path", "/about"), ("sec-fetch-mode", "navigate"),
                   ("user-agent", "curl/8.0"), ("x-forwarded-for", "10.0.0.1, 172.16.0.9")] }

/-- A sub-resource request carrying the sticky cookie of version `gray`. -/
def reqAsset : Host :=
  { emptyHost with
    reqHeaders := [(":path", "/static/app.js"), ("sec-fetch-mode", "no-cors"),
                   ("cookie", "x-pre-higress-tag=gray,10.0.0.1"),
                   ("x-forwarded-for", "10.0.0.1")] }

/-- A configuration whose fragments are HTML elements. -/
def cfgTags : GrayConfig :=
  { cfgXYZ with
    Injection := { Head := ["<base>"], Body := { First := ["<hr>"], Last := ["<br>"] } } }

/-- The rule-mode configuration with a fallback path template but no fallback host. -/
def cfgNoHost : GrayConfig :=
  { cfgXYZ with
    Rewrite := { Host := "", NotFound := "/\x7bversion\x7d/404.html", Index := [], File := [] } }

/-- The rule-mode configuration whose backend tag is the name of the sticky cookie. -/
def cfgCollide : GrayConfig :=
  { cfgXYZ with BackendGrayTag := sampleConsts.XPreHigressTag }

/-- The host state when the upstream answers the request `req` with the response
headers `resp` and the body `body`. -/
def upstreamAnswers (req : Host) (resp : Headers) (body : String) : Host :=
  { req with respHeaders := resp, respBody := body }

/-- The navigation request of user `u1` under `cfgNoHost`, answered with `404`. -/
def resp404NoHost : Host :=
  upstreamAnswers (onHttpRequestHeaders (specUtil sampleConsts) sampleConsts cfgNoHost reqPage).1
    [(":status", "404"), ("content-type", "text/plain"), ("content-length", "9")]
    "Not Found"

/-- The navigation request of user `u1` under `cfgWeighted`, answered with `500` and an
attachment disposition. -/
def resp500 : Host :=
  upstreamAnswers (onHttpRequestHeaders (specUtil sampleConsts) sampleConsts cfgWeighted reqPage).1
    [(":status", "500"), ("content-type", "text/plain"),
     ("content-disposition", "attachment"), ("content-length", "5")]
    "oops!"

/-- The response headers of a successful page response. -/
def headers200 : Headers :=
  [(":status", "200"), ("content-type", "text/html; charset=utf-8"), ("content-length", "39")]

/-- The host state of a page request in the not-found fallback, as the response body
handler and the fetch callback meet it. -/
def fallbackHost : Host :=
  { pageHost with
    ctx := (sampleConsts.IsNotFound, Val.bool true) :: pageHost.ctx
    respBody := "Not Found" }

/-! ## Lemmas on the string primitives -/

theorem replaceAux_skip (old new : List Char) (s : List Char) (k : Nat) :
    replaceAux old new k s = replaceAux old new 0 (s.drop k) := by
  induction s generalizing k with
  | nil => simp [replaceAux]
  | cons c cs ih =>
    cases k with
    | zero => simp
    | succ k => simp [replaceAux, ih k]

theorem replaceAux_cons (old new : List Char) (hne : old ≠ []) (c : Char) (cs : List Char) :
    replaceAux old new 0 (c :: cs) =
      if old.isPrefixOf (c :: cs) then new ++ replaceAux old new 0 ((c :: cs).drop old.length)
      else c :: replaceAux old new 0 cs := by
  obtain ⟨a, as, rfl⟩ := List.exists_cons_of_ne_nil hne
  rw [replaceAux, replaceAux_skip]
  simp

theorem isPrefixOf_eq_append {m s : List Char} (h : m.isPrefixOf s = true) :
    s = m ++ s.drop m.length := by
  rw [List.isPrefixOf_iff_prefix] at h
  obtain ⟨t, rfl⟩ := h
  simp

theorem replaceAux_of_cut_none (old new : List Char) (hne : old ≠ []) (s : List Char)
    (h : cutFirst old s = none) : replaceAux old new 0 s = s := by
  induction s with
  | nil => simp [replaceAux]
  | cons c cs ih =>
    rw [replaceAux_cons old new hne]
    by_cases hp : old.isPrefixOf (c :: cs) = true
    · simp [cutFirst, hp] at h
    · simp only [cutFirst, hp, Bool.false_eq_true, if_false, Option.map_eq_none'] at h
      simp [hp, ih h]

theorem cut_some_spec (old new : List Char) (hne : old ≠ []) (s a b : List Char)
    (h : cutFirst old s = some (a, b)) :
    s = a ++ old ++ b ∧ replaceAux old new 0 s = a ++ new ++ replaceAux old new 0 b := by
  induction s generalizing a with
  | nil =>
    have : old.isEmpty = false := by cases old <;> simp_all
    simp [cutFirst, this] at h
  | cons c cs ih =>
    rw [replaceAux_cons old new hne]
    by_cases hp : old.isPrefixOf (c :: cs) = true
    · simp only [cutFirst, hp, if_true, Option.some.injEq, Prod.mk.injEq] at h
      obtain ⟨rfl, rfl⟩ := h
      refine ⟨?_, by simp [hp]⟩
      simpa using isPrefixOf_eq_append hp
    · simp only [cutFirst, hp, Bool.false_eq_true, if_false, Option.map_eq_some', Prod.mk.injEq,
        Prod.exists] at h
      obtain ⟨a', b', hc, rfl, rfl⟩ := h
      obtain ⟨h1, h2⟩ := ih a' hc
      refine ⟨by rw [h1]; simp, by simp [hp, h2]⟩

theorem occurrencesL_cons_ge (m : List Char) (c : Char) (cs : List Char) :
    occurrencesL m cs ≤ occurrencesL m (c :: cs) := by
  simp [occurrencesL]

theorem occurrencesL_append_ge (m a b : List Char) :
    occurrencesL m b ≤ occurrencesL m (a ++ b) := by
  induction a with
  | nil => simp
  | cons c cs ih => exact Nat.le_trans ih (occurrencesL_cons_ge m c (cs ++ b))

theorem occurrencesL_eq_zero_iff (m : List Char) (hne : m ≠ []) (s : List Char) :
    occurrencesL m s = 0 ↔ cutFirst m s = none := by
  have hm : m.isEmpty = false := by cases m <;> simp_all
  induction s with
  | nil => simp [occurrencesL, cutFirst, hm]
  | cons c cs ih =>
    by_cases hp : m.isPrefixOf (c :: cs) = true
    · simp [occurrencesL, cutFirst, hp]
    · simp [occurrencesL, cutFirst, hp, ih]

theorem occurrencesL_of_cut (m : List Char) (hne : m ≠ []) (s a b : List Char)
    (h : cutFirst m s = some (a, b)) : occurrencesL m b + 1 ≤ occurrencesL m s := by
  induction s generalizing a with
  | nil =>
    have : m.isEmpty = false := by cases m <;> simp_all
    simp [cutFirst, this] at h
  | cons c cs ih =>
    by_cases hp : m.isPrefixOf (c :: cs) = true
    · simp only [cutFirst, hp, if_true, Option.some.injEq, Prod.mk.injEq] at h
      obtain ⟨-, rfl⟩ := h
      obtain ⟨x, xs, rfl⟩ := List.exists_cons_of_ne_nil hne
      have h1 : occurrencesL (x :: xs) (List.drop xs.length cs) ≤ occurrencesL (x :: xs) cs := by
        conv_rhs => rw [← List.take_append_drop xs.length cs]
        exact occurrencesL_append_ge _ _ _
      simp only [occurrencesL, hp, if_true, List.length_cons, List.drop_succ_cons]
      omega
    · simp only [cutFirst, hp, Bool.false_eq_true, if_false, Option.map_eq_some', Prod.mk.injEq,
        Prod.exists] at h
      obtain ⟨a', b', hc, -, rfl⟩ := h
      have := ih a' hc
      simp only [occurrencesL, hp, Bool.false_eq_true, if_false]
      omega

/-- With exactly one occurrence the scan replaces it and nothing else. -/
theorem replaceAux_of_one (old new : List Char) (hne : old ≠ []) (s : List Char)
    (h : occurrencesL old s = 1) :
    ∃ a b, cutFirst old s = some (a, b) ∧ s = a ++ old ++ b ∧
      replaceAux old new 0 s = a ++ new ++ b := by
  cases hc : cutFirst old s with
  | none =>
    rw [(occurrencesL_eq_zero_iff old hne s).2 hc] at h
    exact absurd h (by decide)
  | some p =>
    obtain ⟨a, b⟩ := p
    have hb : occurrencesL old b = 0 := by
      have := occurrencesL_of_cut old hne s a b hc
      omega
    obtain ⟨h1, h2⟩ := cut_some_spec old new hne s a b hc
    refine ⟨a, b, rfl, h1, ?_⟩
    rw [h2, replaceAux_of_cut_none old new hne b ((occurrencesL_eq_zero_iff old hne b).1 hb)]

theorem cut_some_length (m : List Char) (hne : m ≠ []) (s a b : List Char)
    (h : cutFirst m s = some (a, b)) : b.length < s.length := by
  obtain ⟨h1, -⟩ := cut_some_spec m [] hne s a b h
  have : 0 < m.length := List.length_pos.2 hne
  rw [h1]
  simp only [List.length_append]
  omega

theorem replaceAux_eq_insertEveryL (m before after : List Char) (hne : m ≠ []) (n : Nat)
    (s : List Char) (hn : s.length ≤ n) :
    replaceAux m (before ++ m ++ after) 0 s = insertEveryL m before after n s := by
  induction n generalizing s with
  | zero =>
    have : s = [] := List.length_eq_zero.1 (Nat.le_zero.1 hn)
    subst this
    simp [replaceAux, insertEveryL]
  | succ n ih =>
    cases hc : cutFirst m s with
    | none => simp [insertEveryL, hc, replaceAux_of_cut_none m _ hne s hc]
    | some p =>
      obtain ⟨a, b⟩ := p
      have hlen := cut_some_length m hne s a b hc
      obtain ⟨-, h2⟩ := cut_some_spec m (before ++ m ++ after) hne s a b hc
      rw [h2, ih b (by omega)]
      simp [insertEveryL, hc]

theorem replaceAll_eq_insertAtEvery (s marker before after : String) (hne : marker.data ≠ []) :
    replaceAll s marker (before ++ marker ++ after) = insertAtEvery s marker before after := by
  obtain ⟨x, xs, hx⟩ := List.exists_cons_of_ne_nil hne
  simp only [replaceAll, insertAtEvery, replaceAllL, hx, String.data_append]
  rw [← hx, replaceAux_eq_insertEveryL marker.data _ _ hne _ _ (Nat.le_refl _)]

theorem replaceAll_eq_insertBeforeFirst (s marker ins : String) (hne : marker.data ≠ [])
    (h1 : occurrences s marker = 1) :
    replaceAll s marker (ins ++ marker) = insertBeforeFirst s marker ins := by
  obtain ⟨a, b, hc, -, hr⟩ := replaceAux_of_one marker.data (ins ++ marker).data hne s.data h1
  obtain ⟨x, xs, hx⟩ := List.exists_cons_of_ne_nil hne
  simp only [replaceAll, insertBeforeFirst, replaceAllL, hx]
  rw [← hx, hr, hc]
  simp [String.data_append]

theorem replaceAll_eq_insertAfterFirst (s marker ins : String) (hne : marker.data ≠ [])
    (h1 : occurrences s marker = 1) :
    replaceAll s marker (marker ++ ins) = insertAfterFirst s marker ins := by
  obtain ⟨a, b, hc, -, hr⟩ := replaceAux_of_one marker.data (marker ++ ins).data hne s.data h1
  obtain ⟨x, xs, hx⟩ := List.exists_cons_of_ne_nil hne
  simp only [replaceAll, insertAfterFirst, replaceAllL, hx]
  rw [← hx, hr, hc]
  simp [String.data_append]

theorem injectBody_eq_injectAtEvery (grayConfig : GrayConfig) (body : String) :
    injectBody grayConfig body = injectAtEvery grayConfig body := by
  have e1 : ∀ x : String, x ++ "\n</head>" = (x ++ "\n") ++ "</head>" ++ "" := by
    intro x; apply String.ext; simp [String.data_append]
  have e2 : ∀ x : String, "<body>\n" ++ x = "" ++ "<body>" ++ ("\n" ++ x) := by
    intro x; apply String.ext; simp [String.data_append]
  have e3 : ∀ x : String, x ++ "\n</body>" = (x ++ "\n") ++ "</body>" ++ "" := by
    intro x; apply String.ext; simp [String.data_append]
  simp only [injectBody, injectAtEvery]
  rw [e1, e2, e3, replaceAll_eq_insertAtEvery _ _ _ _ (by decide),
    replaceAll_eq_insertAtEvery _ _ _ _ (by decide),
    replaceAll_eq_insertAtEvery _ _ _ _ (by decide)]

theorem injectBody_eq_injectAtFirst (grayConfig : GrayConfig) (body : String)
    (h1 : occurrences body "</head>" = 1)
    (h2 : occurrences (insertBeforeFirst body "</head>"
      (join grayConfig.Injection.Head "\n" ++ "\n")) "<body>" = 1)
    (h3 : occurrences (insertAfterFirst (insertBeforeFirst body "</head>"
      (join grayConfig.Injection.Head "\n" ++ "\n")) "<body>"
      ("\n" ++ join grayConfig.Injection.Body.First "\n")) "</body>" = 1) :
    injectBody grayConfig body = injectAtFirst grayConfig body := by
  have e1 : ∀ x : String, x ++ "\n</head>" = (x ++ "\n") ++ "</head>" := by
    intro x; apply String.ext; simp [String.data_append]
  have e2 : ∀ x : String, "<body>\n" ++ x = "<body>" ++ ("\n" ++ x) := by
    intro x; apply String.ext; simp [String.data_append]
  have e3 : ∀ x : String, x ++ "\n</body>" = (x ++ "\n") ++ "</body>" := by
    intro x; apply String.ext; simp [String.data_append]
  simp only [injectBody, injectAtFirst]
  rw [e1, e2, e3, replaceAll_eq_insertBeforeFirst _ _ _ (by decide) h1,
    replaceAll_eq_insertAfterFirst _ _ _ (by decide) h2,
    replaceAll_eq_insertBeforeFirst _ _ _ (by decide) h3]

theorem onHttpResponseBody_page (U : Util) (K : Consts) (grayConfig : GrayConfig)
    (body : String) (h : Host) (v : String)
    (hen : U.IsGrayEnabled grayConfig = true)
    (hpage : ctxBool h.ctx K.IsPageRequest = true)
    (hv : ctxString h.ctx K.XPreHigressTag = some v)
    (hfb : inFallback K grayConfig h = false) :
    onHttpResponseBody U K grayConfig body h =
      some ({ h with respBody := injectBody grayConfig body }, Action.Continue) := by
  simp only [inFallback] at hfb
  simp [onHttpResponseBody, hen, hpage, hv]
  intro h1 h2
  simpa [h1, h2] using hfb

theorem replaceAux_length_ge (m new : List Char) (hne : m ≠ []) (hlen : m.length ≤ new.length)
    (n : Nat) (s : List Char) (hn : s.length ≤ n) :
    s.length ≤ (replaceAux m new 0 s).length := by
  induction n generalizing s with
  | zero =>
    have : s = [] := List.length_eq_zero.1 (Nat.le_zero.1 hn)
    subst this
    simp
  | succ n ih =>
    cases hc : cutFirst m s with
    | none => rw [replaceAux_of_cut_none m new hne s hc]
    | some p =>
      obtain ⟨a, b⟩ := p
      have hb := cut_some_length m hne s a b hc
      obtain ⟨h1, h2⟩ := cut_some_spec m new hne s a b hc
      have := ih b (by omega)
      rw [h2]
      conv_lhs => rw [h1]
      simp only [List.length_append]
      omega

theorem replaceAux_length_gt (m new : List Char) (hne : m ≠ []) (hlen : m.length < new.length)
    (s : List Char) (hocc : occurrencesL m s ≠ 0) :
    s.length < (replaceAux m new 0 s).length := by
  cases hc : cutFirst m s with
  | none => exact absurd ((occurrencesL_eq_zero_iff m hne s).2 hc) hocc
  | some p =>
    obtain ⟨a, b⟩ := p
    obtain ⟨h1, h2⟩ := cut_some_spec m new hne s a b hc
    have := replaceAux_length_ge m new hne (Nat.le_of_lt hlen) b.length b (Nat.le_refl _)
    rw [h2]
    conv_lhs => rw [h1]
    simp only [List.length_append]
    omega

theorem replaceAll_of_absent (s marker new : String) (hne : marker.data ≠ [])
    (hocc : occurrences s marker = 0) : replaceAll s marker new = s := by
  obtain ⟨x, xs, hx⟩ := List.exists_cons_of_ne_nil hne
  simp only [replaceAll, replaceAllL, hx]
  rw [← hx, replaceAux_of_cut_none marker.data new.data hne s.data
    ((occurrencesL_eq_zero_iff marker.data hne s.data).1 hocc)]

theorem replaceAll_length_ge (s marker new : String) (hne : marker.data ≠ [])
    (hlen : marker.data.length ≤ new.data.length) :
    s.data.length ≤ (replaceAll s marker new).data.length := by
  obtain ⟨x, xs, hx⟩ := List.exists_cons_of_ne_nil hne
  simp only [replaceAll, replaceAllL, hx]
  rw [← hx]
  exact replaceAux_length_ge marker.data new.data hne hlen _ _ (Nat.le_refl _)

theorem replaceAll_length_gt (s marker new : String) (hne : marker.data ≠ [])
    (hlen : marker.data.length < new.data.length) (hocc : occurrences s marker ≠ 0) :
    s.data.length < (replaceAll s marker new).data.length := by
  obtain ⟨x, xs, hx⟩ := List.exists_cons_of_ne_nil hne
  simp only [replaceAll, replaceAllL, hx]
  rw [← hx]
  exact replaceAux_length_gt marker.data new.data hne hlen _ hocc

theorem injectBody_no_fragments_iff (grayConfig : GrayConfig) (body : String)
    (hH : grayConfig.Injection.Head = []) (hF : grayConfig.Injection.Body.First = [])
    (hL : grayConfig.Injection.Body.Last = []) :
    injectBody grayConfig body = body ↔
      (occurrences body "</head>" = 0 ∧ occurrences body "<body>" = 0
        ∧ occurrences body "</body>" = 0) := by
  simp only [injectBody, hH, hF, hL, join]
  constructor
  · intro heq
    have l1 := replaceAll_length_ge body "</head>" ("" ++ "\n</head>") (by decide) (by decide)
    have l2 := replaceAll_length_ge (replaceAll body "</head>" ("" ++ "\n</head>")) "<body>"
      ("<body>\n" ++ "") (by decide) (by decide)
    have l3 := replaceAll_length_ge (replaceAll (replaceAll body "</head>" ("" ++ "\n</head>"))
      "<body>" ("<body>\n" ++ "")) "</body>" ("" ++ "\n</body>") (by decide) (by decide)
    have hlen := congrArg (fun x : String => x.data.length) heq
    simp only at hlen
    have h1 : occurrences body "</head>" = 0 := by
      by_contra hc
      have := replaceAll_length_gt body "</head>" ("" ++ "\n</head>") (by decide) (by decide) hc
      omega
    rw [replaceAll_of_absent body "</head>" _ (by decide) h1] at heq hlen l2 l3
    have h2 : occurrences body "<body>" = 0 := by
      by_contra hc
      have := replaceAll_length_gt body "<body>" ("<body>\n" ++ "") (by decide) (by decide) hc
      omega
    rw [replaceAll_of_absent body "<body>" _ (by decide) h2] at heq hlen l3
    have h3 : occurrences body "</body>" = 0 := by
      by_contra hc
      have := replaceAll_length_gt body "</body>" ("" ++ "\n</body>") (by decide) (by decide) hc
      omega
    exact ⟨h1, h2, h3⟩
  · rintro ⟨h1, h2, h3⟩
    rw [replaceAll_of_absent body "</head>" _ (by decide) h1,
      replaceAll_of_absent body "<body>" _ (by decide) h2,
      replaceAll_of_absent body "</body>" _ (by decide) h3]

theorem occurrencesL_cons (m : List Char) (c : Char) (cs : List Char) :
    occurrencesL m (c :: cs) =
      (if m.isPrefixOf (c :: cs) then 1 else 0) + occurrencesL m cs := rfl

theorem occurrencesL_self_append_pos (m b : List Char) (hne : m ≠ []) :
    1 ≤ occurrencesL m (m ++ b) := by
  obtain ⟨x, xs, rfl⟩ := List.exists_cons_of_ne_nil hne
  have hp : (x :: xs).isPrefixOf (x :: (xs ++ b)) = true := by
    rw [List.isPrefixOf_iff_prefix]
    exact ⟨b, rfl⟩
  have e : (x :: xs) ++ b = x :: (xs ++ b) := rfl
  rw [e, occurrencesL_cons, if_pos hp]
  omega

theorem cutFirst_of_unique (m : List Char) (hne : m ≠ []) (a b s : List Char)
    (h1 : occurrencesL m s = 1) (hs : s = a ++ m ++ b) : cutFirst m s = some (a, b) := by
  induction a generalizing s with
  | nil =>
    subst hs
    obtain ⟨x, xs, rfl⟩ := List.exists_cons_of_ne_nil hne
    have hp : (x :: xs).isPrefixOf (x :: (xs ++ b)) = true := by
      rw [List.isPrefixOf_iff_prefix]
      exact ⟨b, rfl⟩
    have e : [] ++ (x :: xs) ++ b = x :: (xs ++ b) := rfl
    rw [e, cutFirst, if_pos hp]
    simp
  | cons c a ih =>
    have e : (c :: a) ++ m ++ b = c :: (a ++ m ++ b) := rfl
    rw [e] at hs
    subst hs
    have hge : 1 ≤ occurrencesL m (a ++ m ++ b) := by
      have h2 := occurrencesL_append_ge m a (m ++ b)
      have h3 := occurrencesL_self_append_pos m b hne
      rw [List.append_assoc]
      omega
    rw [occurrencesL_cons] at h1
    by_cases hp : m.isPrefixOf (c :: (a ++ m ++ b)) = true
    · rw [if_pos hp] at h1
      omega
    · rw [if_neg hp, Nat.zero_add] at h1
      rw [cutFirst, if_neg hp, ih (a ++ m ++ b) h1 rfl]
      rfl

theorem insertBeforeFirst_data (s marker ins : String) (a b : List Char)
    (hne : marker.data ≠ []) (h1 : occurrences s marker = 1)
    (hs : s.data = a ++ marker.data ++ b) :
    (insertBeforeFirst s marker ins).data = a ++ ins.data ++ marker.data ++ b := by
  simp [insertBeforeFirst, cutFirst_of_unique marker.data hne a b s.data h1 hs]

theorem insertAfterFirst_data (s marker ins : String) (a b : List Char)
    (hne : marker.data ≠ []) (h1 : occurrences s marker = 1)
    (hs : s.data = a ++ marker.data ++ b) :
    (insertAfterFirst s marker ins).data = a ++ marker.data ++ ins.data ++ b := by
  simp [insertAfterFirst, cutFirst_of_unique marker.data hne a b s.data h1 hs]

theorem injectAtFirst_document_order (grayConfig : GrayConfig) (body a b c d : String)
    (h1 : occurrences body "</head>" = 1)
    (h2 : occurrences (insertBeforeFirst body "</head>"
      (join grayConfig.Injection.Head "\n" ++ "\n")) "<body>" = 1)
    (h3 : occurrences (insertAfterFirst (insertBeforeFirst body "</head>"
      (join grayConfig.Injection.Head "\n" ++ "\n")) "<body>"
      ("\n" ++ join grayConfig.Injection.Body.First "\n")) "</body>" = 1)
    (hb : body = a ++ "</head>" ++ b ++ "<body>" ++ c ++ "</body>" ++ d) :
    injectAtFirst grayConfig body =
      a ++ join grayConfig.Injection.Head "\n" ++ "\n" ++ "</head>" ++ b
        ++ "<body>" ++ "\n" ++ join grayConfig.Injection.Body.First "\n" ++ c
        ++ join grayConfig.Injection.Body.Last "\n" ++ "\n" ++ "</body>" ++ d := by
  have e1 := insertBeforeFirst_data body "</head>"
    (join grayConfig.Injection.Head "\n" ++ "\n") a.data
    (b.data ++ "<body>".data ++ c.data ++ "</body>".data ++ d.data) (by decide) h1
    (by rw [hb]; simp [String.data_append, List.append_assoc])
  have e2 := insertAfterFirst_data (insertBeforeFirst body "</head>"
    (join grayConfig.Injection.Head "\n" ++ "\n")) "<body>"
    ("\n" ++ join grayConfig.Injection.Body.First "\n")
    (a.data ++ (join grayConfig.Injection.Head "\n" ++ "\n").data ++ "</head>".data ++ b.data)
    (c.data ++ "</body>".data ++ d.data) (by decide) h2
    (by rw [e1]; simp [List.append_assoc])
  have e3 := insertBeforeFirst_data (insertAfterFirst (insertBeforeFirst body "</head>"
    (join grayConfig.Injection.Head "\n" ++ "\n")) "<body>"
    ("\n" ++ join grayConfig.Injection.Body.First "\n")) "</body>"
    (join grayConfig.Injection.Body.Last "\n" ++ "\n")
    (a.data ++ (join grayConfig.Injection.Head "\n" ++ "\n").data ++ "</head>".data ++ b.data
      ++ "<body>".data ++ ("\n" ++ join grayConfig.Injection.Body.First "\n").data ++ c.data)
    d.data (by decide) h3
    (by rw [e2]; simp [List.append_assoc])
  apply String.ext
  simp only [injectAtFirst]
  rw [e3]
  simp [String.data_append, List.append_assoc]

/-! ## The three replacements against one pass over the input body -/

theorem markerLike_headClose : MarkerLike headClose :=
  ⟨_, rfl, by decide, by decide⟩

theorem markerLike_bodyOpen : MarkerLike bodyOpen :=
  ⟨_, rfl, by decide, by decide⟩

theorem markerLike_bodyClose : MarkerLike bodyClose :=
  ⟨_, rfl, by decide, by decide⟩

theorem MarkerLike.ne_nil {m : List Char} (hm : MarkerLike m) : m ≠ [] := by
  obtain ⟨m', rfl, -, -⟩ := hm
  simp

theorem isPrefixOf_append_startsGuard (q a v : List Char)
    (hq : ∀ x ∈ q, x ≠ '<' ∧ x ≠ '\n') (hv : startsGuard v) :
    q.isPrefixOf (a ++ v) = q.isPrefixOf a := by
  induction q generalizing a with
  | nil => simp
  | cons x q ih =>
    have hx := hq x (List.mem_cons_self _ _)
    cases a with
    | nil =>
      cases v with
      | nil => simp
      | cons g w =>
        have hg := hv g (by simp)
        have : x ≠ g := by
          rcases hg with rfl | rfl
          · exact hx.1
          · exact hx.2
        simp [List.isPrefixOf, this]
    | cons c a =>
      show (x == c && q.isPrefixOf (a ++ v)) = (x == c && q.isPrefixOf a)
      rw [ih a (fun y hy => hq y (List.mem_cons_of_mem _ hy))]

theorem marker_isPrefixOf_append (m : List Char) (hm : MarkerLike m) (c : Char)
    (a v : List Char) (hv : startsGuard v) :
    m.isPrefixOf (c :: a ++ v) = m.isPrefixOf (c :: a) := by
  obtain ⟨m', rfl, h1, -⟩ := hm
  show ('<' == c && m'.isPrefixOf (a ++ v)) = ('<' == c && m'.isPrefixOf a)
  rw [isPrefixOf_append_startsGuard m' a v h1 hv]

theorem replaceAux_append_startsGuard (m new : List Char) (hm : MarkerLike m) (n : Nat)
    (a v : List Char) (hn : a.length ≤ n) (hv : startsGuard v) :
    replaceAux m new 0 (a ++ v) = replaceAux m new 0 a ++ replaceAux m new 0 v := by
  induction n generalizing a with
  | zero =>
    have : a = [] := List.length_eq_zero.1 (Nat.le_zero.1 hn)
    subst this
    simp [replaceAux]
  | succ n ih =>
    cases a with
    | nil => simp [replaceAux]
    | cons c a =>
      have hp := marker_isPrefixOf_append m hm c a v hv
      have e : (c :: a) ++ v = c :: (a ++ v) := rfl
      rw [e, replaceAux_cons m new hm.ne_nil, replaceAux_cons m new hm.ne_nil, ← e, hp]
      by_cases hc : m.isPrefixOf (c :: a) = true
      · have hle : m.length ≤ (c :: a).length := by
          rw [List.isPrefixOf_iff_prefix] at hc
          exact hc.length_le
        have hd : List.drop m.length ((c :: a) ++ v) = List.drop m.length (c :: a) ++ v :=
          List.drop_append_of_le_length hle
        have hpos : 0 < m.length := List.length_pos.2 hm.ne_nil
        have hlen : (List.drop m.length (c :: a)).length ≤ n := by
          simp only [List.length_drop, List.length_cons] at hn ⊢
          omega
        rw [if_pos hc, if_pos hc, hd, ih _ hlen, List.append_assoc]
      · simp only [List.length_cons] at hn
        rw [if_neg hc, if_neg hc, ih a (by omega)]
        rfl

theorem occurrencesL_append_startsGuard (m : List Char) (hm : MarkerLike m)
    (a v : List Char) (hv : startsGuard v) :
    occurrencesL m (a ++ v) = occurrencesL m a + occurrencesL m v := by
  induction a with
  | nil =>
    obtain ⟨m', rfl, -, -⟩ := hm
    simp [occurrencesL]
  | cons c a ih =>
    have hp := marker_isPrefixOf_append m hm c a v hv
    have e : (c :: a) ++ v = c :: (a ++ v) := rfl
    rw [e, occurrencesL_cons, occurrencesL_cons, ← e, hp, ih]
    omega

theorem occurrencesL_of_not_mem (m : List Char) (hm : MarkerLike m) (s : List Char)
    (hs : '<' ∉ s) : occurrencesL m s = 0 := by
  obtain ⟨m', rfl, -, -⟩ := hm
  induction s with
  | nil => simp [occurrencesL]
  | cons c cs ih =>
    have hc : ('<' == c) = false := by
      have : '<' ≠ c := fun e => hs (e ▸ List.mem_cons_self _ _)
      simpa using this
    have hp : ('<' :: m').isPrefixOf (c :: cs) = false := by
      show ('<' == c && m'.isPrefixOf cs) = false
      rw [hc]
      rfl
    rw [occurrencesL_cons, hp, ih (fun h => hs (List.mem_cons_of_mem _ h))]
    rfl

theorem replaceAux_of_occ_zero (m new : List Char) (hm : MarkerLike m) (s : List Char)
    (h : occurrencesL m s = 0) : replaceAux m new 0 s = s :=
  replaceAux_of_cut_none m new hm.ne_nil s ((occurrencesL_eq_zero_iff m hm.ne_nil s).1 h)

theorem isPrefixOf_append_endsGuard (q a b : List Char) (hne : a ≠ [])
    (hq : ∀ x ∈ q.dropLast, x ≠ '>' ∧ x ≠ '\n') (ha : endsGuard a) :
    q.isPrefixOf (a ++ b) = q.isPrefixOf a := by
  induction q generalizing a with
  | nil => simp
  | cons x q ih =>
    cases a with
    | nil => exact absurd rfl hne
    | cons c a =>
      show (x == c && q.isPrefixOf (a ++ b)) = (x == c && q.isPrefixOf a)
      cases a with
      | nil =>
        cases q with
        | nil => simp
        | cons y q =>
          have hx := hq x (by simp [List.dropLast])
          have hc := ha c (by simp)
          have hxc : (x == c) = false := by
            have : x ≠ c := by
              rcases hc with rfl | rfl
              · exact hx.1
              · exact hx.2
            simpa using this
          rw [hxc]
          rfl
      | cons d a =>
        have hq2 : ∀ z ∈ q.dropLast, z ≠ '>' ∧ z ≠ '\n' := by
          intro z hz
          cases q with
          | nil => simp at hz
          | cons y q => exact hq z (by simp only [List.dropLast_cons₂]; exact List.mem_cons_of_mem _ hz)
        have ha2 : endsGuard (d :: a) := by
          intro z hz
          exact ha z (by simpa [List.getLast?_cons_cons] using hz)
        rw [ih (d :: a) (by simp) hq2 ha2]

theorem occurrencesL_append_endsGuard (m : List Char) (hm : MarkerLike m)
    (a b : List Char) (ha : endsGuard a) :
    occurrencesL m (a ++ b) = occurrencesL m a + occurrencesL m b := by
  induction a with
  | nil =>
    obtain ⟨m', rfl, -, -⟩ := hm
    simp [occurrencesL]
  | cons c a ih =>
    obtain ⟨m', hmeq, h1, h2⟩ := hm
    have hp := isPrefixOf_append_endsGuard m (c :: a) b (by simp) h2 ha
    have ha2 : endsGuard a := by
      cases a with
      | nil => intro z hz; simp at hz
      | cons d a =>
        intro z hz
        exact ha z (by simpa [List.getLast?_cons_cons] using hz)
    have e : (c :: a) ++ b = c :: (a ++ b) := rfl
    rw [e, occurrencesL_cons, occurrencesL_cons, ← e, hp, ih ha2]
    omega

theorem replaceAux_startsGuard (m new : List Char) (hm : MarkerLike m) (hne : new ≠ [])
    (hnew : startsGuard new) (v : List Char) (hv : startsGuard v) :
    startsGuard (replaceAux m new 0 v) := by
  cases v with
  | nil => simpa [replaceAux] using hv
  | cons g w =>
    rw [replaceAux_cons m new hm.ne_nil]
    obtain ⟨x, xs, rfl⟩ := List.exists_cons_of_ne_nil hne
    split
    · intro c hc
      exact hnew c (by simpa using hc)
    · intro c hc
      exact hv c (by simpa using hc)

theorem occurrencesL_chunk (m : List Char) (hm : MarkerLike m) (w : List Char)
    (hw : '<' ∉ w) (hp : m.isPrefixOf ('<' :: w) = false) : occurrencesL m ('<' :: w) = 0 := by
  rw [occurrencesL_cons, hp, occurrencesL_of_not_mem m hm w hw]
  rfl

theorem occurrencesL_newline_cons (m : List Char) (hm : MarkerLike m) (w : List Char) :
    occurrencesL m ('\n' :: w) = occurrencesL m w := by
  obtain ⟨m', rfl, -, -⟩ := hm
  rw [occurrencesL_cons]
  have : ('<' :: m').isPrefixOf ('\n' :: w) = false := rfl
  rw [this]
  simp

theorem injectScan_skip (hd bf bl : List Char) (s : List Char) (k : Nat) :
    injectScan hd bf bl k s = injectScan hd bf bl 0 (s.drop k) := by
  induction s generalizing k with
  | nil => simp [injectScan]
  | cons c cs ih =>
    cases k with
    | zero => simp
    | succ k => simp [injectScan, ih k]

theorem injectScan_cons (hd bf bl : List Char) (c : Char) (cs : List Char) :
    injectScan hd bf bl 0 (c :: cs) =
      if headClose.isPrefixOf (c :: cs) then
        hd ++ '\n' :: headClose ++ injectScan hd bf bl 0 ((c :: cs).drop 7)
      else if bodyOpen.isPrefixOf (c :: cs) then
        bodyOpen ++ '\n' :: bf ++ injectScan hd bf bl 0 ((c :: cs).drop 6)
      else if bodyClose.isPrefixOf (c :: cs) then
        bl ++ '\n' :: bodyClose ++ injectScan hd bf bl 0 ((c :: cs).drop 7)
      else c :: injectScan hd bf bl 0 cs := by
  rw [injectScan, injectScan_skip hd bf bl cs 6, injectScan_skip hd bf bl cs 5]
  rfl

theorem marker_not_isPrefixOf (m : List Char) (hm : MarkerLike m) (c : Char) (cs : List Char)
    (hc : c ≠ '<') : m.isPrefixOf (c :: cs) = false := by
  obtain ⟨m', rfl, -, -⟩ := hm
  show ('<' == c && m'.isPrefixOf cs) = false
  have : ('<' == c) = false := by simpa using fun e : '<' = c => hc e.symm
  rw [this]
  rfl

theorem injectScan_of_not_mem (hd bf bl : List Char) (s : List Char) (hs : '<' ∉ s) :
    injectScan hd bf bl 0 s = s := by
  induction s with
  | nil => simp [injectScan]
  | cons c cs ih =>
    have hc : c ≠ '<' := fun e => hs (e ▸ List.mem_cons_self _ _)
    rw [injectScan_cons, marker_not_isPrefixOf _ markerLike_headClose c cs hc,
      marker_not_isPrefixOf _ markerLike_bodyOpen c cs hc,
      marker_not_isPrefixOf _ markerLike_bodyClose c cs hc,
      ih (fun h => hs (List.mem_cons_of_mem _ h))]
    rfl

theorem injectScan_append_startsGuard (hd bf bl : List Char) (n : Nat)
    (a v : List Char) (hn : a.length ≤ n) (hv : startsGuard v) :
    injectScan hd bf bl 0 (a ++ v) = injectScan hd bf bl 0 a ++ injectScan hd bf bl 0 v := by
  induction n generalizing a with
  | zero =>
    have : a = [] := List.length_eq_zero.1 (Nat.le_zero.1 hn)
    subst this
    simp [injectScan]
  | succ n ih =>
    cases a with
    | nil => simp [injectScan]
    | cons c a =>
      have h1 := marker_isPrefixOf_append _ markerLike_headClose c a v hv
      have h2 := marker_isPrefixOf_append _ markerLike_bodyOpen c a v hv
      have h3 := marker_isPrefixOf_append _ markerLike_bodyClose c a v hv
      have e : (c :: a) ++ v = c :: (a ++ v) := rfl
      have step : ∀ (m : List Char), m.isPrefixOf (c :: a) = true → 0 < m.length →
          injectScan hd bf bl 0 (List.drop m.length ((c :: a) ++ v)) =
            injectScan hd bf bl 0 (List.drop m.length (c :: a)) ++ injectScan hd bf bl 0 v := by
        intro m hc hpos
        have hle : m.length ≤ (c :: a).length := by
          rw [List.isPrefixOf_iff_prefix] at hc
          exact hc.length_le
        have hlen : (List.drop m.length (c :: a)).length ≤ n := by
          simp only [List.length_drop, List.length_cons] at hn ⊢
          omega
        rw [List.drop_append_of_le_length hle, ih _ hlen]
      rw [e, injectScan_cons, injectScan_cons, ← e, h1, h2, h3]
      by_cases c1 : headClose.isPrefixOf (c :: a) = true
      · have := step headClose c1 (by decide)
        simp only [if_pos c1]
        rw [show (7 : Nat) = headClose.length from rfl, this]
        simp [List.append_assoc]
      · by_cases c2 : bodyOpen.isPrefixOf (c :: a) = true
        · have := step bodyOpen c2 (by decide)
          simp only [if_neg c1, if_pos c2]
          rw [show (6 : Nat) = bodyOpen.length from rfl, this]
          simp [List.append_assoc]
        · by_cases c3 : bodyClose.isPrefixOf (c :: a) = true
          · have := step bodyClose c3 (by decide)
            simp only [if_neg c1, if_neg c2, if_pos c3]
            rw [show (7 : Nat) = bodyClose.length from rfl, this]
            simp [List.append_assoc]
          · simp only [List.length_cons] at hn
            simp only [if_neg c1, if_neg c2, if_neg c3]
            rw [ih a (by omega)]
            rfl

theorem cutFirst_self_append (m t : List Char) (hne : m ≠ []) :
    cutFirst m (m ++ t) = some ([], t) := by
  obtain ⟨x, xs, rfl⟩ := List.exists_cons_of_ne_nil hne
  have hp : (x :: xs).isPrefixOf (x :: (xs ++ t)) = true := by
    rw [List.isPrefixOf_iff_prefix]
    exact ⟨t, rfl⟩
  have e : (x :: xs) ++ t = x :: (xs ++ t) := rfl
  rw [e, cutFirst, if_pos hp]
  simp

theorem replaceAux_marker_text (m new t : List Char) (hm : MarkerLike m) (ht : '<' ∉ t) :
    replaceAux m new 0 (m ++ t) = new ++ t := by
  obtain ⟨-, h2⟩ := cut_some_spec m new hm.ne_nil (m ++ t) [] t
    (cutFirst_self_append m t hm.ne_nil)
  rw [h2, replaceAux_of_occ_zero m new hm t (occurrencesL_of_not_mem m hm t ht)]
  rfl

theorem startsGuard_group_newline (g rest : List Char) (hg : g = [] ∨ g.head? = some '<') :
    startsGuard (g ++ '\n' :: rest) := by
  intro c hc
  rcases hg with rfl | h1
  · simp at hc
    exact Or.inr hc.symm
  · cases g with
    | nil => simp at h1
    | cons x xs =>
      simp at h1 hc
      subst h1
      exact Or.inl hc.symm

theorem endsGuard_newline_group (pre g : List Char) (hg : g = [] ∨ g.getLast? = some '>') :
    endsGuard (pre ++ '\n' :: g) := by
  intro c hc
  rcases hg with rfl | h2
  · simp at hc
    exact Or.inr hc.symm
  · have hne : g ≠ [] := by
      intro e
      simp [e] at h2
    have e : pre ++ '\n' :: g = (pre ++ ['\n']) ++ g := by simp
    rw [e, List.getLast?_append_of_ne_nil _ hne, h2] at hc
    simp at hc
    exact Or.inl hc.symm

theorem injectStagesL_append (hd bf bl : List Char) (hH : HeadGroupOk hd)
    (a v : List Char) (hv : startsGuard v) :
    injectStagesL hd bf bl (a ++ v) = injectStagesL hd bf bl a ++ injectStagesL hd bf bl v := by
  have g1 : startsGuard (replaceAux headClose (hd ++ '\n' :: headClose) 0 v) :=
    replaceAux_startsGuard _ _ markerLike_headClose (by simp)
      (startsGuard_group_newline hd headClose hH.2.2) v hv
  have g2 : startsGuard (replaceAux bodyOpen (bodyOpen ++ '\n' :: bf) 0
      (replaceAux headClose (hd ++ '\n' :: headClose) 0 v)) :=
    replaceAux_startsGuard _ _ markerLike_bodyOpen (by simp [bodyOpen])
      (by intro c hc; simp [bodyOpen] at hc; exact Or.inl hc.symm) _ g1
  unfold injectStagesL
  rw [replaceAux_append_startsGuard _ _ markerLike_headClose _ a v (Nat.le_refl _) hv,
    replaceAux_append_startsGuard _ _ markerLike_bodyOpen _ _ _ (Nat.le_refl _) g1,
    replaceAux_append_startsGuard _ _ markerLike_bodyClose _ _ _ (Nat.le_refl _) g2]

theorem injectStagesL_of_not_mem (hd bf bl s : List Char) (hs : '<' ∉ s) :
    injectStagesL hd bf bl s = s := by
  unfold injectStagesL
  rw [replaceAux_of_occ_zero _ _ markerLike_headClose s
      (occurrencesL_of_not_mem _ markerLike_headClose s hs),
    replaceAux_of_occ_zero _ _ markerLike_bodyOpen s
      (occurrencesL_of_not_mem _ markerLike_bodyOpen s hs),
    replaceAux_of_occ_zero _ _ markerLike_bodyClose s
      (occurrencesL_of_not_mem _ markerLike_bodyClose s hs)]

theorem occurrencesL_marker_text (m M t : List Char) (hm : MarkerLike m) (hM : MarkerLike M)
    (ht : '<' ∉ t) (hp : m.isPrefixOf (M ++ t) = false) : occurrencesL m (M ++ t) = 0 := by
  obtain ⟨M', rfl, h1, -⟩ := hM
  have e : ('<' :: M') ++ t = '<' :: (M' ++ t) := rfl
  rw [e] at hp ⊢
  refine occurrencesL_chunk m hm (M' ++ t) ?_ hp
  intro h
  rcases List.mem_append.1 h with h | h
  · exact (h1 _ h).1 rfl
  · exact ht h

theorem injectStagesL_headClose (hd bf bl t : List Char) (hH : HeadGroupOk hd)
    (ht : '<' ∉ t) :
    injectStagesL hd bf bl (headClose ++ t) = hd ++ '\n' :: headClose ++ t := by
  unfold injectStagesL
  rw [replaceAux_marker_text _ _ t markerLike_headClose ht]
  have e : (hd ++ '\n' :: headClose) ++ t = hd ++ '\n' :: (headClose ++ t) := by simp
  have z2 : occurrencesL bodyOpen (hd ++ '\n' :: (headClose ++ t)) = 0 := by
    rw [occurrencesL_append_startsGuard _ markerLike_bodyOpen _ _
        (by intro c hc; simp at hc; exact Or.inr hc.symm),
      occurrencesL_newline_cons _ markerLike_bodyOpen, hH.1,
      occurrencesL_marker_text _ _ t markerLike_bodyOpen markerLike_headClose ht rfl]
  have z3 : occurrencesL bodyClose (hd ++ '\n' :: (headClose ++ t)) = 0 := by
    rw [occurrencesL_append_startsGuard _ markerLike_bodyClose _ _
        (by intro c hc; simp at hc; exact Or.inr hc.symm),
      occurrencesL_newline_cons _ markerLike_bodyClose, hH.2.1,
      occurrencesL_marker_text _ _ t markerLike_bodyClose markerLike_headClose ht rfl]
  rw [e, replaceAux_of_occ_zero _ _ markerLike_bodyOpen _ z2,
    replaceAux_of_occ_zero _ _ markerLike_bodyClose _ z3]

theorem injectStagesL_bodyOpen (hd bf bl t : List Char) (hY : FirstGroupOk bf)
    (ht : '<' ∉ t) :
    injectStagesL hd bf bl (bodyOpen ++ t) = bodyOpen ++ '\n' :: bf ++ t := by
  unfold injectStagesL
  have z1 : occurrencesL headClose (bodyOpen ++ t) = 0 :=
    occurrencesL_marker_text _ _ t markerLike_headClose markerLike_bodyOpen ht rfl
  rw [replaceAux_of_occ_zero _ _ markerLike_headClose _ z1,
    replaceAux_marker_text _ _ t markerLike_bodyOpen ht]
  have z3 : occurrencesL bodyClose ((bodyOpen ++ '\n' :: bf) ++ t) = 0 := by
    rw [occurrencesL_append_endsGuard _ markerLike_bodyClose _ _
        (endsGuard_newline_group bodyOpen bf hY.2),
      occurrencesL_of_not_mem _ markerLike_bodyClose t ht,
      occurrencesL_append_startsGuard _ markerLike_bodyClose _ _
        (by intro c hc; simp at hc; exact Or.inr hc.symm),
      occurrencesL_newline_cons _ markerLike_bodyClose, hY.1]
    rfl
  rw [replaceAux_of_occ_zero _ _ markerLike_bodyClose _ z3]

theorem injectStagesL_bodyClose (hd bf bl t : List Char) (ht : '<' ∉ t) :
    injectStagesL hd bf bl (bodyClose ++ t) = bl ++ '\n' :: bodyClose ++ t := by
  unfold injectStagesL
  have z1 : occurrencesL headClose (bodyClose ++ t) = 0 :=
    occurrencesL_marker_text _ _ t markerLike_headClose markerLike_bodyClose ht rfl
  have z2 : occurrencesL bodyOpen (bodyClose ++ t) = 0 :=
    occurrencesL_marker_text _ _ t markerLike_bodyOpen markerLike_bodyClose ht rfl
  rw [replaceAux_of_occ_zero _ _ markerLike_headClose _ z1,
    replaceAux_of_occ_zero _ _ markerLike_bodyOpen _ z2,
    replaceAux_marker_text _ _ t markerLike_bodyClose ht]

theorem injectScan_marker_text (hd bf bl t : List Char) (ht : '<' ∉ t) :
    injectScan hd bf bl 0 (headClose ++ t) = hd ++ '\n' :: headClose ++ t
      ∧ injectScan hd bf bl 0 (bodyOpen ++ t) = bodyOpen ++ '\n' :: bf ++ t
      ∧ injectScan hd bf bl 0 (bodyClose ++ t) = bl ++ '\n' :: bodyClose ++ t := by
  have h := injectScan_of_not_mem hd bf bl t ht
  refine ⟨?_, ?_, ?_⟩
  · have e : headClose ++ t = '<' :: (headClose.tail ++ t) := rfl
    rw [e, injectScan_cons]
    simp [headClose, h]
  · have e : bodyOpen ++ t = '<' :: (bodyOpen.tail ++ t) := rfl
    rw [e, injectScan_cons]
    simp [headClose, bodyOpen, h]
  · have e : bodyClose ++ t = '<' :: (bodyClose.tail ++ t) := rfl
    rw [e, injectScan_cons]
    simp [headClose, bodyOpen, bodyClose, h]

theorem not_mem_drop_of_not_mem (k : Nat) (c : Char) (l : List Char) (h : c ∉ l) :
    c ∉ l.drop k :=
  fun hm => h (List.mem_of_mem_drop hm)

theorem injectStagesL_chunk (hd bf bl : List Char) (hH : HeadGroupOk hd)
    (hY : FirstGroupOk bf) (c : Char) (p : List Char) (hp : '<' ∉ p) :
    injectStagesL hd bf bl (c :: p) = injectScan hd bf bl 0 (c :: p) := by
  by_cases hc : c = '<'
  · subst hc
    have key : ∀ M : List Char, MarkerLike M → M.isPrefixOf ('<' :: p) = true →
        ∃ t, '<' :: p = M ++ t ∧ '<' ∉ t := by
      intro M hM hpre
      refine ⟨List.drop M.length ('<' :: p), isPrefixOf_eq_append hpre, ?_⟩
      obtain ⟨M', rfl, -, -⟩ := hM
      have e : List.drop ('<' :: M').length ('<' :: p) = List.drop M'.length p := rfl
      rw [e]
      exact not_mem_drop_of_not_mem _ _ _ hp
    by_cases c1 : headClose.isPrefixOf ('<' :: p) = true
    · obtain ⟨t, e, ht⟩ := key _ markerLike_headClose c1
      rw [e, injectStagesL_headClose hd bf bl t hH ht, (injectScan_marker_text hd bf bl t ht).1]
    · by_cases c2 : bodyOpen.isPrefixOf ('<' :: p) = true
      · obtain ⟨t, e, ht⟩ := key _ markerLike_bodyOpen c2
        rw [e, injectStagesL_bodyOpen hd bf bl t hY ht,
          (injectScan_marker_text hd bf bl t ht).2.1]
      · by_cases c3 : bodyClose.isPrefixOf ('<' :: p) = true
        · obtain ⟨t, e, ht⟩ := key _ markerLike_bodyClose c3
          rw [e, injectStagesL_bodyClose hd bf bl t ht,
            (injectScan_marker_text hd bf bl t ht).2.2]
        · have f1 : headClose.isPrefixOf ('<' :: p) = false := Bool.eq_false_iff.2 c1
          have f2 : bodyOpen.isPrefixOf ('<' :: p) = false := Bool.eq_false_iff.2 c2
          have f3 : bodyClose.isPrefixOf ('<' :: p) = false := Bool.eq_false_iff.2 c3
          unfold injectStagesL
          rw [replaceAux_of_occ_zero _ _ markerLike_headClose _
              (occurrencesL_chunk _ markerLike_headClose p hp f1),
            replaceAux_of_occ_zero _ _ markerLike_bodyOpen _
              (occurrencesL_chunk _ markerLike_bodyOpen p hp f2),
            replaceAux_of_occ_zero _ _ markerLike_bodyClose _
              (occurrencesL_chunk _ markerLike_bodyClose p hp f3),
            injectScan_cons, f1, f2, f3, injectScan_of_not_mem hd bf bl p hp]
          rfl
  · have hs : '<' ∉ c :: p := by
      intro h
      rcases List.mem_cons.1 h with h | h
      · exact hc h.symm
      · exact hp h
    rw [injectStagesL_of_not_mem hd bf bl _ hs, injectScan_of_not_mem hd bf bl _ hs]

theorem startsGuard_dropWhile (l : List Char) :
    startsGuard (l.dropWhile (fun x => x != '<')) := by
  induction l with
  | nil => intro c hc; simp at hc
  | cons x xs ih =>
    by_cases hx : x = '<'
    · subst hx
      intro c hc
      simp [List.dropWhile] at hc
      exact Or.inl hc.symm
    · have hb : (x != '<') = true := by simpa using hx
      have e : List.dropWhile (fun x => x != '<') (x :: xs)
          = List.dropWhile (fun x => x != '<') xs := by
        simp [List.dropWhile, hb]
      rw [e]
      exact ih

theorem not_mem_takeWhile (l : List Char) : '<' ∉ l.takeWhile (fun x => x != '<') := by
  intro h
  have := List.mem_takeWhile_imp h
  simp at this

theorem injectStagesL_eq_injectScan (hd bf bl : List Char) (hH : HeadGroupOk hd)
    (hY : FirstGroupOk bf) (n : Nat) (s : List Char) (hn : s.length ≤ n) :
    injectStagesL hd bf bl s = injectScan hd bf bl 0 s := by
  induction n generalizing s with
  | zero =>
    have : s = [] := List.length_eq_zero.1 (Nat.le_zero.1 hn)
    subst this
    simp [injectStagesL, injectScan, replaceAux]
  | succ n ih =>
    cases s with
    | nil => simp [injectStagesL, injectScan, replaceAux]
    | cons c cs =>
      have hsplit : c :: cs = (c :: cs.takeWhile (fun x => x != '<'))
          ++ cs.dropWhile (fun x => x != '<') := by
        simp [List.takeWhile_append_dropWhile]
      have hv := startsGuard_dropWhile cs
      have hlen : (cs.dropWhile (fun x => x != '<')).length ≤ n := by
        have h1 : (cs.dropWhile (fun x => x != '<')).length ≤ cs.length :=
          (List.dropWhile_sublist _).length_le
        simp only [List.length_cons] at hn
        omega
      rw [hsplit, injectStagesL_append hd bf bl hH _ _ hv,
        injectScan_append_startsGuard hd bf bl _ _ _ (Nat.le_refl _) hv,
        injectStagesL_chunk hd bf bl hH hY c _ (not_mem_takeWhile cs), ih _ hlen]

theorem injectBody_data (grayConfig : GrayConfig) (body : String) :
    (injectBody grayConfig body).data =
      injectStagesL (join grayConfig.Injection.Head "\n").data
        (join grayConfig.Injection.Body.First "\n").data
        (join grayConfig.Injection.Body.Last "\n").data body.data := by
  simp only [injectBody, replaceAll, String.data_append]
  rfl

theorem injectBody_eq_injectAtMarkers (grayConfig : GrayConfig) (body : String)
    (h : groupsSeamFree grayConfig) :
    injectBody grayConfig body = injectAtMarkers grayConfig body := by
  apply String.ext
  rw [injectBody_data, injectStagesL_eq_injectScan _ _ _ h.1 h.2 _ _ (Nat.le_refl _)]
  rfl

theorem injectBody_no_fragments (grayConfig : GrayConfig) (body : String)
    (hH : grayConfig.Injection.Head = []) (hF : grayConfig.Injection.Body.First = [])
    (hL : grayConfig.Injection.Body.Last = []) :
    injectBody grayConfig body = newlineAtMarkers body := by
  have hs : groupsSeamFree grayConfig := by
    unfold groupsSeamFree HeadGroupOk FirstGroupOk
    rw [hH, hF]
    decide
  rw [injectBody_eq_injectAtMarkers grayConfig body hs]
  simp only [injectAtMarkers, newlineAtMarkers, hH, hF, hL]
  rfl

theorem occurrencesL_append_of_not_mem (m : List Char) (hm : MarkerLike m)
    (w rest : List Char) (hw : '<' ∉ w) :
    occurrencesL m (w ++ rest) = occurrencesL m rest := by
  induction w with
  | nil => rfl
  | cons c w ih =>
    have hc : c ≠ '<' := fun e => hw (e ▸ List.mem_cons_self _ _)
    have e : (c :: w) ++ rest = c :: (w ++ rest) := rfl
    rw [e, occurrencesL_cons, marker_not_isPrefixOf m hm c _ hc,
      ih (fun h => hw (List.mem_cons_of_mem _ h))]
    simp

theorem occurrencesL_marker_append (m M rest : List Char) (hm : MarkerLike m)
    (hM : MarkerLike M) :
    occurrencesL m (M ++ rest) =
      (if m.isPrefixOf (M ++ rest) then 1 else 0) + occurrencesL m rest := by
  obtain ⟨M', rfl, h1, -⟩ := hM
  have e : ('<' :: M') ++ rest = '<' :: (M' ++ rest) := rfl
  rw [e, occurrencesL_cons,
    occurrencesL_append_of_not_mem m hm M' rest (fun h => (h1 _ h).1 rfl)]

theorem injectScan_marker_append (hd bf bl t : List Char) :
    injectScan hd bf bl 0 (headClose ++ t) = hd ++ '\n' :: headClose ++ injectScan hd bf bl 0 t
      ∧ injectScan hd bf bl 0 (bodyOpen ++ t)
          = bodyOpen ++ '\n' :: bf ++ injectScan hd bf bl 0 t
      ∧ injectScan hd bf bl 0 (bodyClose ++ t)
          = bl ++ '\n' :: bodyClose ++ injectScan hd bf bl 0 t := by
  refine ⟨?_, ?_, ?_⟩
  · have e : headClose ++ t = '<' :: (headClose.tail ++ t) := rfl
    rw [e, injectScan_cons]
    simp [headClose]
  · have e : bodyOpen ++ t = '<' :: (bodyOpen.tail ++ t) := rfl
    rw [e, injectScan_cons]
    simp [headClose, bodyOpen]
  · have e : bodyClose ++ t = '<' :: (bodyClose.tail ++ t) := rfl
    rw [e, injectScan_cons]
    simp [headClose, bodyOpen, bodyClose]

theorem injectScan_length (hd bf bl : List Char) (n : Nat) (s : List Char)
    (hn : s.length ≤ n) :
    (injectScan hd bf bl 0 s).length =
      s.length + occurrencesL headClose s * (hd.length + 1)
        + occurrencesL bodyOpen s * (bf.length + 1)
        + occurrencesL bodyClose s * (bl.length + 1) := by
  induction n generalizing s with
  | zero =>
    have : s = [] := List.length_eq_zero.1 (Nat.le_zero.1 hn)
    subst this
    simp [injectScan, occurrencesL, headClose, bodyOpen, bodyClose]
  | succ n ih =>
    cases s with
    | nil => simp [injectScan, occurrencesL, headClose, bodyOpen, bodyClose]
    | cons c cs =>
      have step : ∀ M : List Char, M.isPrefixOf (c :: cs) = true → 0 < M.length →
          ∃ t, c :: cs = M ++ t ∧ t.length ≤ n := by
        intro M hM hpos
        refine ⟨List.drop M.length (c :: cs), isPrefixOf_eq_append hM, ?_⟩
        simp only [List.length_drop, List.length_cons] at hn ⊢
        omega
      have o := fun m M t => occurrencesL_marker_append m M t
      by_cases c1 : headClose.isPrefixOf (c :: cs) = true
      · obtain ⟨t, e, hl⟩ := step headClose c1 (by decide)
        have p1 : headClose.isPrefixOf (headClose ++ t) = true := e ▸ c1
        have p2 : bodyOpen.isPrefixOf (headClose ++ t) = false := rfl
        have p3 : bodyClose.isPrefixOf (headClose ++ t) = false := rfl
        rw [e, (injectScan_marker_append hd bf bl t).1,
          o _ _ t markerLike_headClose markerLike_headClose,
          o _ _ t markerLike_bodyOpen markerLike_headClose,
          o _ _ t markerLike_bodyClose markerLike_headClose, p1, p2, p3]
        have l1 : headClose.length = 7 := rfl
        simp only [List.length_append, List.length_cons, ih t hl, l1]
        simp only [if_true, Bool.false_eq_true, if_false]
        ring
      · by_cases c2 : bodyOpen.isPrefixOf (c :: cs) = true
        · obtain ⟨t, e, hl⟩ := step bodyOpen c2 (by decide)
          have p1 : headClose.isPrefixOf (bodyOpen ++ t) = false := rfl
          have p2 : bodyOpen.isPrefixOf (bodyOpen ++ t) = true := e ▸ c2
          have p3 : bodyClose.isPrefixOf (bodyOpen ++ t) = false := rfl
          rw [e, (injectScan_marker_append hd bf bl t).2.1,
            o _ _ t markerLike_headClose markerLike_bodyOpen,
            o _ _ t markerLike_bodyOpen markerLike_bodyOpen,
            o _ _ t markerLike_bodyClose markerLike_bodyOpen, p1, p2, p3]
          have l1 : bodyOpen.length = 6 := rfl
          simp only [List.length_append, List.length_cons, ih t hl, l1]
          simp only [if_true, Bool.false_eq_true, if_false]
          ring
        · by_cases c3 : bodyClose.isPrefixOf (c :: cs) = true
          · obtain ⟨t, e, hl⟩ := step bodyClose c3 (by decide)
            have p1 : headClose.isPrefixOf (bodyClose ++ t) = false := rfl
            have p2 : bodyOpen.isPrefixOf (bodyClose ++ t) = false := rfl
            have p3 : bodyClose.isPrefixOf (bodyClose ++ t) = true := e ▸ c3
            rw [e, (injectScan_marker_append hd bf bl t).2.2,
              o _ _ t markerLike_headClose markerLike_bodyClose,
              o _ _ t markerLike_bodyOpen markerLike_bodyClose,
              o _ _ t markerLike_bodyClose markerLike_bodyClose, p1, p2, p3]
            have l1 : bodyClose.length = 7 := rfl
            simp only [List.length_append, List.length_cons, ih t hl, l1]
            simp only [if_true, Bool.false_eq_true, if_false]
            ring
          · have f1 : headClose.isPrefixOf (c :: cs) = false := Bool.eq_false_iff.2 c1
            have f2 : bodyOpen.isPrefixOf (c :: cs) = false := Bool.eq_false_iff.2 c2
            have f3 : bodyClose.isPrefixOf (c :: cs) = false := Bool.eq_false_iff.2 c3
            simp only [List.length_cons] at hn
            rw [injectScan_cons, f1, f2, f3, occurrencesL_cons, occurrencesL_cons,
              occurrencesL_cons, f1, f2, f3]
            simp only [Bool.false_eq_true, if_false, List.length_cons, ih cs (by omega)]
            ring

/-! ## Response injector (claims C3, C4, C10) -/

/-- C3 as stated fails: `pageSeam` contains each marker exactly once and no fragment of
`cfgSeam` contains a marker, yet the head fragment `y>` completes the text `<bod` in
front of `</head>` to a second `<body>`, so the body-first fragment `Y` is written
twice: the body written is neither the input body with the three groups inserted at
its three markers nor the result of inserting each group at the first occurrence of
its marker. -/
theorem C3_seam_counterexample :
    occurrences pageSeam "</head>" = 1 ∧ occurrences pageSeam "<body>" = 1
      ∧ occurrences pageSeam "</body>" = 1 ∧ fragmentsMarkerFree cfgSeam
      ∧ ctxBool pageHost.ctx sampleConsts.IsPageRequest = true
      ∧ inFallback sampleConsts cfgSeam pageHost = false
      ∧ pageSeam = "<html><head><bod" ++ "</head>" ++ "<body>" ++ "</body>" ++ "</html>"
      ∧ onHttpResponseBody (specUtil sampleConsts) sampleConsts cfgSeam pageSeam pageHost
          = some ({ pageHost with
                    respBody := "<html><head><body>\nY\n</head><body>\nYZ\n</body></html>" },
                  Action.Continue)
      ∧ onHttpResponseBody (specUtil sampleConsts) sampleConsts cfgSeam pageSeam pageHost
          ≠ some ({ pageHost with
                    respBody := "<html><head><bod" ++ "y>\n" ++ "</head>" ++ "<body>" ++ "\nY"
                      ++ "Z\n" ++ "</body>" ++ "</html>" },
                  Action.Continue)
      ∧ onHttpResponseBody (specUtil sampleConsts) sampleConsts cfgSeam pageSeam pageHost
          ≠ some ({ pageHost with respBody := injectAtFirst cfgSeam pageSeam },
                  Action.Continue) := by
  decide

/-- C3 (amended): for a page request outside the not-found fallback, a body with exactly
one occurrence of each marker and marker-free fragments, provided no insertion
creates a further marker (the content still holds exactly one `<body>` after the head
insertion and exactly one `</body>` after the body-first insertion), the body written
is the input body with the head group and a newline before `</head>`, a newline and
the body-first group after `<body>`, and the body-last group and a newline before
`</body>`, each inserted once; for a body in document order this is the explicit
text of the second part. -/
theorem C3_injection_at_single_markers (U : Util) (K : Consts) (grayConfig : GrayConfig)
    (body : String) (h : Host) (v : String)
    (hen : U.IsGrayEnabled grayConfig = true)
    (hpage : ctxBool h.ctx K.IsPageRequest = true)
    (hv : ctxString h.ctx K.XPreHigressTag = some v)
    (hfb : inFallback K grayConfig h = false)
    (h1 : occurrences body "</head>" = 1)
    (_h2 : occurrences body "<body>" = 1)
    (_h3 : occurrences body "</body>" = 1)
    (_hfree : fragmentsMarkerFree grayConfig)
    (h2s : occurrences (insertBeforeFirst body "</head>"
      (join grayConfig.Injection.Head "\n" ++ "\n")) "<body>" = 1)
    (h3s : occurrences (insertAfterFirst (insertBeforeFirst body "</head>"
      (join grayConfig.Injection.Head "\n" ++ "\n")) "<body>"
      ("\n" ++ join grayConfig.Injection.Body.First "\n")) "</body>" = 1) :
    onHttpResponseBody U K grayConfig body h =
        some ({ h with respBody := injectAtFirst grayConfig body }, Action.Continue)
      ∧ ∀ a b c d : String, body = a ++ "</head>" ++ b ++ "<body>" ++ c ++ "</body>" ++ d →
          injectAtFirst grayConfig body =
            a ++ join grayConfig.Injection.Head "\n" ++ "\n" ++ "</head>" ++ b
              ++ "<body>" ++ "\n" ++ join grayConfig.Injection.Body.First "\n" ++ c
              ++ join grayConfig.Injection.Body.Last "\n" ++ "\n" ++ "</body>" ++ d := by
  refine ⟨?_, fun a b c d hb => injectAtFirst_document_order grayConfig body a b c d h1 h2s h3s hb⟩
  rw [onHttpResponseBody_page U K grayConfig body h v hen hpage hv hfb,
    injectBody_eq_injectAtFirst grayConfig body h1 h2s h3s]

/-- C3's own example: the page `<html><head></head><body></body></html>` with the
fragments `X`, `Y` and `Z`. -/
theorem C3_injection_witness :
    onHttpResponseBody (specUtil sampleConsts) sampleConsts cfgXYZ pageXYZ pageHost =
        some ({ pageHost with respBody := injectAtFirst cfgXYZ pageXYZ }, Action.Continue)
      ∧ injectAtFirst cfgXYZ pageXYZ = "<html><head>X\n</head><body>\nYZ\n</body></html>" :=
  ⟨(C3_injection_at_single_markers (specUtil sampleConsts) sampleConsts cfgXYZ pageXYZ pageHost
      "base" (by decide) (by decide) (by decide) (by decide) (by decide) (by decide)
      (by decide) (by decide) (by decide) (by decide)).1,
   ((C3_injection_at_single_markers (specUtil sampleConsts) sampleConsts cfgXYZ pageXYZ pageHost
      "base" (by decide) (by decide) (by decide) (by decide) (by decide) (by decide)
      (by decide) (by decide) (by decide) (by decide)).2 "<html><head>" "" "" "</html>"
      (by decide)).trans (by decide)⟩

/-- C4 as stated fails: in `pageTwice` the markers `<body>` and `</body>` occur twice and
the fragments `Y` and `Z` are written at both occurrences, not only at the first. -/
theorem C4_every_occurrence_counterexample :
    occurrences pageTwice "<body>" = 2 ∧ occurrences pageTwice "</body>" = 2
      ∧ ctxBool pageHost.ctx sampleConsts.IsPageRequest = true
      ∧ inFallback sampleConsts cfgXYZ pageHost = false
      ∧ onHttpResponseBody (specUtil sampleConsts) sampleConsts cfgXYZ pageTwice pageHost
          = some ({ pageHost with respBody :=
                      "<html><head>X\n</head><body>\nYZ\n</body><body>\nYZ\n</body></html>" },
                  Action.Continue)
      ∧ injectAtFirst cfgXYZ pageTwice
          = "<html><head>X\n</head><body>\nYZ\n</body><body></body></html>"
      ∧ onHttpResponseBody (specUtil sampleConsts) sampleConsts cfgXYZ pageTwice pageHost
          ≠ some ({ pageHost with respBody := injectAtFirst cfgXYZ pageTwice },
                  Action.Continue) := by
  decide

/-- C4 (amended): for a page request outside the not-found fallback and every body, the
three replacements run one after the other, each on the content left by the one
before, and each treats every occurrence of its marker in that content, found left to
right with the search resuming behind each occurrence, not only the first. Provided
no insertion forms a marker where a later replacement looks (`groupsSeamFree`: the
joined head group contains neither `<body>` nor `</body>` and is empty or starts with
`<`, the joined body-first group does not contain `</body>` and is empty or ends with
`>`), the body written is the input body with each fragment group written at every
occurrence of its marker in the input body, once per occurrence: the written body is
longer than the input by the length of a group and its newline for each occurrence
of the group's marker in the input. -/
theorem C4_injection_at_every_occurrence (U : Util) (K : Consts) (grayConfig : GrayConfig)
    (body : String) (h : Host) (v : String)
    (hen : U.IsGrayEnabled grayConfig = true)
    (hpage : ctxBool h.ctx K.IsPageRequest = true)
    (hv : ctxString h.ctx K.XPreHigressTag = some v)
    (hfb : inFallback K grayConfig h = false) :
    onHttpResponseBody U K grayConfig body h =
        some ({ h with respBody := injectAtEvery grayConfig body }, Action.Continue)
      ∧ (groupsSeamFree grayConfig →
          onHttpResponseBody U K grayConfig body h =
              some ({ h with respBody := injectAtMarkers grayConfig body }, Action.Continue)
            ∧ (injectAtMarkers grayConfig body).data.length =
                body.data.length
                  + occurrences body "</head>"
                      * ((join grayConfig.Injection.Head "\n").data.length + 1)
                  + occurrences body "<body>"
                      * ((join grayConfig.Injection.Body.First "\n").data.length + 1)
                  + occurrences body "</body>"
                      * ((join grayConfig.Injection.Body.Last "\n").data.length + 1)) := by
  have hw := onHttpResponseBody_page U K grayConfig body h v hen hpage hv hfb
  refine ⟨?_, fun hs => ⟨?_, ?_⟩⟩
  · rw [hw, injectBody_eq_injectAtEvery grayConfig body]
  · rw [hw, injectBody_eq_injectAtMarkers grayConfig body hs]
  · exact injectScan_length _ _ _ _ body.data (Nat.le_refl _)

/-- The page with repeated markers under a configuration of HTML fragments: every
`<body>` and every `</body>` of the page gets its group. -/
theorem C4_injection_witness :
    onHttpResponseBody (specUtil sampleConsts) sampleConsts cfgTags pageTwice pageHost =
        some ({ pageHost with respBody := injectAtMarkers cfgTags pageTwice }, Action.Continue)
      ∧ injectAtMarkers cfgTags pageTwice =
          "<html><head><base>\n</head><body>\n<hr><br>\n</body><body>\n<hr><br>\n</body></html>"
      ∧ onHttpResponseBody (specUtil sampleConsts) sampleConsts cfgXYZ pageTwice pageHost =
        some ({ pageHost with respBody := injectAtEvery cfgXYZ pageTwice }, Action.Continue)
      ∧ injectAtEvery cfgXYZ pageTwice
          = "<html><head>X\n</head><body>\nYZ\n</body><body>\nYZ\n</body></html>" :=
  ⟨((C4_injection_at_every_occurrence (specUtil sampleConsts) sampleConsts cfgTags pageTwice
      pageHost "base" (by decide) (by decide) (by decide) (by decide)).2 (by decide)).1,
    by decide,
    (C4_injection_at_every_occurrence (specUtil sampleConsts) sampleConsts cfgXYZ pageTwice
      pageHost "base" (by decide) (by decide) (by decide) (by decide)).1,
    by decide⟩

/-- C10 as stated fails: without any fragment configured the page
`<html><head></head><body></body></html>` is still rewritten, a newline being written
at each of its three markers. -/
theorem C10_newline_counterexample :
    cfgNoFragments.Injection.Head = [] ∧ cfgNoFragments.Injection.Body.First = []
      ∧ cfgNoFragments.Injection.Body.Last = []
      ∧ ctxBool pageHost.ctx sampleConsts.IsPageRequest = true
      ∧ inFallback sampleConsts cfgNoFragments pageHost = false
      ∧ onHttpResponseBody (specUtil sampleConsts) sampleConsts cfgNoFragments pageXYZ pageHost
          = some ({ pageHost with
                    respBody := "<html><head>\n</head><body>\n\n</body></html>" },
                  Action.Continue)
      ∧ onHttpResponseBody (specUtil sampleConsts) sampleConsts cfgNoFragments pageXYZ pageHost
          ≠ some ({ pageHost with respBody := pageXYZ }, Action.Continue) := by
  decide

/-- C10 (amended): for a page request outside the not-found fallback with no injection
fragments configured, the body written is the body received with one newline written
at every marker of the body received (before every `</head>`, after every `<body>`,
before every `</body>`) and nothing else changed, so it is longer than the body
received by the number of marker occurrences; it is byte-for-byte the body received
exactly when the body contains none of the three markers. -/
theorem C10_pass_through_without_markers (U : Util) (K : Consts) (grayConfig : GrayConfig)
    (body : String) (h : Host) (v : String)
    (hen : U.IsGrayEnabled grayConfig = true)
    (hpage : ctxBool h.ctx K.IsPageRequest = true)
    (hv : ctxString h.ctx K.XPreHigressTag = some v)
    (hfb : inFallback K grayConfig h = false)
    (hH : grayConfig.Injection.Head = []) (hF : grayConfig.Injection.Body.First = [])
    (hL : grayConfig.Injection.Body.Last = []) :
    onHttpResponseBody U K grayConfig body h =
        some ({ h with respBody := newlineAtMarkers body }, Action.Continue)
      ∧ (newlineAtMarkers body).data.length =
          body.data.length + occurrences body "</head>" + occurrences body "<body>"
            + occurrences body "</body>"
      ∧ (newlineAtMarkers body = body ↔
          (occurrences body "</head>" = 0 ∧ occurrences body "<body>" = 0
            ∧ occurrences body "</body>" = 0)) := by
  have hw := onHttpResponseBody_page U K grayConfig body h v hen hpage hv hfb
  have he := injectBody_no_fragments grayConfig body hH hF hL
  refine ⟨by rw [hw, he], ?_, ?_⟩
  · have hl := injectScan_length [] [] [] _ body.data (Nat.le_refl _)
    simp only [List.length_nil, Nat.zero_add, Nat.mul_one] at hl
    exact hl
  · rw [← he]
    exact injectBody_no_fragments_iff grayConfig body hH hF hL

/-- The example page under the configuration without fragments: a newline is written
at each of its three markers. -/
theorem C10_pass_through_witness :
    onHttpResponseBody (specUtil sampleConsts) sampleConsts cfgNoFragments pageXYZ pageHost =
        some ({ pageHost with respBody := newlineAtMarkers pageXYZ }, Action.Continue)
      ∧ newlineAtMarkers pageXYZ = "<html><head>\n</head><body>\n\n</body></html>"
      ∧ onHttpResponseBody (specUtil sampleConsts) sampleConsts cfgNoFragments "<p>hello</p>"
          pageHost = some ({ pageHost with respBody := newlineAtMarkers "<p>hello</p>" },
            Action.Continue)
      ∧ newlineAtMarkers "<p>hello</p>" = "<p>hello</p>" :=
  ⟨(C10_pass_through_without_markers (specUtil sampleConsts) sampleConsts cfgNoFragments
      pageXYZ pageHost "base" (by decide) (by decide) (by decide) (by decide)
      (by decide) (by decide) (by decide)).1,
    by decide,
    (C10_pass_through_without_markers (specUtil sampleConsts) sampleConsts cfgNoFragments
      "<p>hello</p>" pageHost "base" (by decide) (by decide) (by decide) (by decide)
      (by decide) (by decide) (by decide)).1,
    by decide⟩

/-! ## Lemmas on the host primitives and the request handler -/

theorem find?_filter_of_imp {α : Type} (p q : α → Bool) (l : List α)
    (h : ∀ x, p x = true → q x = true) : (l.filter q).find? p = l.find? p := by
  induction l with
  | nil => rfl
  | cons a as ih =>
    by_cases hq : q a = true
    · rw [List.filter_cons_of_pos hq]
      simp only [List.find?_cons, ih]
    · rw [List.filter_cons_of_neg hq]
      have hp : p a = false := by
        cases hpa : p a
        · rfl
        · exact absurd (h a hpa) hq
      simp [List.find?_cons, hp, ih]

theorem getHeader_removeHeader_ne (hs : Headers) (k k2 : String) (hne : lower k ≠ lower k2) :
    getHeader (removeHeader hs k) k2 = getHeader hs k2 := by
  simp only [getHeader, removeHeader]
  rw [find?_filter_of_imp]
  intro x hx
  simp only [beq_iff_eq] at hx
  simp only [bne_iff_ne, ne_eq, hx]
  exact fun h => hne h.symm

theorem getHeader_removeHeader_self (hs : Headers) (k : String) :
    getHeader (removeHeader hs k) k = none := by
  simp [getHeader, removeHeader, List.find?_eq_none]

theorem getHeader_addHeader_ne (hs : Headers) (k k2 v : String) (hne : lower k ≠ lower k2) :
    getHeader (addHeader hs k v) k2 = getHeader hs k2 := by
  simp only [getHeader, addHeader, List.find?_append]
  cases hf : List.find? (fun e => lower e.1 == lower k2) hs with
  | some x => simp
  | none => simp [List.find?_cons, hne]

theorem getHeader_replaceHeader_self (hs : Headers) (k v : String) :
    getHeader (replaceHeader hs k v) k = some v := by
  have h := getHeader_removeHeader_self hs k
  simp only [getHeader, Option.map_eq_none'] at h
  simp [replaceHeader, getHeader, addHeader, List.find?_append, h]

theorem getHeader_replaceHeader_ne (hs : Headers) (k k2 v : String) (hne : lower k ≠ lower k2) :
    getHeader (replaceHeader hs k v) k2 = getHeader hs k2 := by
  rw [replaceHeader, getHeader_addHeader_ne _ _ _ _ hne, getHeader_removeHeader_ne _ _ _ hne]

theorem mem_replaceHeader_of_ne (hs : Headers) (k v : String) (e : String × String)
    (he : e ∈ hs) (hne : lower e.1 ≠ lower k) : e ∈ replaceHeader hs k v := by
  simp only [replaceHeader, addHeader, removeHeader, List.mem_append, List.mem_filter]
  exact Or.inl ⟨he, by simpa using hne⟩

/-- The request headers after `onHttpRequestHeaders`, step by step. -/
theorem onHttpRequestHeaders_reqHeaders (U : Util) (K : Consts) (grayConfig : GrayConfig)
    (h : Host) (hen : U.IsGrayEnabled grayConfig = true) :
    (onHttpRequestHeaders U K grayConfig h).1.reqHeaders =
      let path := (getHeader h.reqHeaders ":path").getD ""
      let isPageRequest :=
        U.IsPageRequest ((getHeader h.reqHeaders "sec-fetch-mode").getD "") path
      let inp := selectorInputs U grayConfig h.reqHeaders
      let version := (selectDeployment U grayConfig isPageRequest inp.grayKeyValue
        inp.preVersion inp.preUniqueClientId inp.uniqueClientId).1.Version
      let hs3 := addHeader (removeHeader (removeHeader h.reqHeaders "Accept-Encoding")
        "Content-Length") XHigressTag version
      let hs5 := if grayConfig.Rewrite.Host != "" then
        replaceHeader hs3 "HOST" grayConfig.Rewrite.Host else hs3
      if grayConfig.Rewrite.File.length > 0 ∨ grayConfig.Rewrite.Index.length > 0 then
        replaceHeader hs5 ":path"
          (if isPageRequest then U.IndexRewrite path version grayConfig.Rewrite.Index
           else U.PrefixFileRewrite path version grayConfig.Rewrite.File)
      else hs5 := by
  simp only [onHttpRequestHeaders, hen]
  by_cases h1 : grayConfig.Rewrite.File.length > 0 ∨ grayConfig.Rewrite.Index.length > 0
  · by_cases h2 : grayConfig.Rewrite.Host = "" <;> simp [h1, h2]
  · by_cases h2 : grayConfig.Rewrite.Host = "" <;> simp [h1, h2]

theorem onHttpRequestHeaders_consulted (U : Util) (K : Consts) (grayConfig : GrayConfig)
    (h : Host) (hen : U.IsGrayEnabled grayConfig = true) :
    (onHttpRequestHeaders U K grayConfig h).1.consulted =
      h.consulted ++ (selectorInputs U grayConfig h.reqHeaders).consulted
        ++ (selectDeployment U grayConfig
            (U.IsPageRequest ((getHeader h.reqHeaders "sec-fetch-mode").getD "")
              ((getHeader h.reqHeaders ":path").getD ""))
            (selectorInputs U grayConfig h.reqHeaders).grayKeyValue
            (selectorInputs U grayConfig h.reqHeaders).preVersion
            (selectorInputs U grayConfig h.reqHeaders).preUniqueClientId
            (selectorInputs U grayConfig h.reqHeaders).uniqueClientId).2 := by
  simp only [onHttpRequestHeaders, hen]
  by_cases h1 : grayConfig.Rewrite.File.length > 0 ∨ grayConfig.Rewrite.Index.length > 0
  · by_cases h2 : grayConfig.Rewrite.Host = "" <;> simp [h1, h2]
  · by_cases h2 : grayConfig.Rewrite.Host = "" <;> simp [h1, h2]

theorem onHttpRequestHeaders_ctx (U : Util) (K : Consts) (grayConfig : GrayConfig)
    (h : Host) (hen : U.IsGrayEnabled grayConfig = true) :
    (onHttpRequestHeaders U K grayConfig h).1.ctx =
      let isPageRequest := U.IsPageRequest ((getHeader h.reqHeaders "sec-fetch-mode").getD "")
        ((getHeader h.reqHeaders ":path").getD "")
      let inp := selectorInputs U grayConfig h.reqHeaders
      let deployment := (selectDeployment U grayConfig isPageRequest inp.grayKeyValue
        inp.preVersion inp.preUniqueClientId inp.uniqueClientId).1
      (K.XUniqueClientId, Val.str inp.uniqueClientId)
        :: (K.IsPageRequest, Val.bool isPageRequest)
        :: (grayConfig.BackendGrayTag, Val.str deployment.BackendVersion)
        :: (K.XPreHigressTag, Val.str deployment.Version) :: h.ctx := by
  simp only [onHttpRequestHeaders, hen, setContext]
  by_cases h1 : grayConfig.Rewrite.File.length > 0 ∨ grayConfig.Rewrite.Index.length > 0
  · by_cases h2 : grayConfig.Rewrite.Host = "" <;> simp [h1, h2]
  · by_cases h2 : grayConfig.Rewrite.Host = "" <;> simp [h1, h2]

/-- The context the request phase leaves behind: whatever `BackendGrayTag` is, the
page-request flag and a front-end version string can be read back. -/
theorem request_phase_context (U : Util) (K : Consts) (grayConfig : GrayConfig) (h : Host)
    (hen : U.IsGrayEnabled grayConfig = true)
    (hk1 : K.IsPageRequest ≠ K.XPreHigressTag)
    (hk3 : K.XUniqueClientId ≠ K.IsPageRequest) :
    ctxBool (onHttpRequestHeaders U K grayConfig h).1.ctx K.IsPageRequest =
        U.IsPageRequest ((getHeader h.reqHeaders "sec-fetch-mode").getD "")
          ((getHeader h.reqHeaders ":path").getD "")
      ∧ ∃ v, ctxString (onHttpRequestHeaders U K grayConfig h).1.ctx K.XPreHigressTag
          = some v := by
  rw [onHttpRequestHeaders_ctx U K grayConfig h hen]
  have e1 : (K.IsPageRequest == K.XUniqueClientId) = false := by
    simpa using fun e => hk3 e.symm
  have e3 : (K.XPreHigressTag == K.IsPageRequest) = false := by
    simpa using fun e => hk1 e.symm
  refine ⟨by simp [ctxBool, getContext, List.lookup, e1], ?_⟩
  by_cases c1 : K.XPreHigressTag = K.XUniqueClientId
  · refine ⟨(selectorInputs U grayConfig h.reqHeaders).uniqueClientId, ?_⟩
    have f1 : (K.XPreHigressTag == K.XUniqueClientId) = true := by simpa using c1
    simp only [ctxString, getContext, List.lookup, f1]
  · have f1 : (K.XPreHigressTag == K.XUniqueClientId) = false := by simpa using c1
    by_cases c2 : K.XPreHigressTag = grayConfig.BackendGrayTag
    · have f2 : (K.XPreHigressTag == grayConfig.BackendGrayTag) = true := by simpa using c2
      exact ⟨_, by simp only [ctxString, getContext, List.lookup, f1, e3, f2]; rfl⟩
    · have f2 : (K.XPreHigressTag == grayConfig.BackendGrayTag) = false := by simpa using c2
      exact ⟨_, by simp only [ctxString, getContext, List.lookup, f1, e3, f2, beq_self_eq_true]; rfl⟩

theorem tag_mem_reqHeaders (U : Util) (K : Consts) (grayConfig : GrayConfig)
    (h : Host) (hen : U.IsGrayEnabled grayConfig = true) :
    (XHigressTag, (selectDeployment U grayConfig
        (U.IsPageRequest ((getHeader h.reqHeaders "sec-fetch-mode").getD "")
          ((getHeader h.reqHeaders ":path").getD ""))
        (selectorInputs U grayConfig h.reqHeaders).grayKeyValue
        (selectorInputs U grayConfig h.reqHeaders).preVersion
        (selectorInputs U grayConfig h.reqHeaders).preUniqueClientId
        (selectorInputs U grayConfig h.reqHeaders).uniqueClientId).1.Version)
      ∈ (onHttpRequestHeaders U K grayConfig h).1.reqHeaders := by
  rw [onHttpRequestHeaders_reqHeaders U K grayConfig h hen]
  simp only
  have h3 : ∀ (hs : Headers) (v : String), (XHigressTag, v) ∈ addHeader hs XHigressTag v := by
    intro hs v
    simp [addHeader]
  have hHost : ∀ (hs : Headers) (v x : String), (XHigressTag, v) ∈ hs →
      (XHigressTag, v) ∈ replaceHeader hs "HOST" x :=
    fun hs v x hm => mem_replaceHeader_of_ne hs "HOST" x _ hm
      (show lower XHigressTag ≠ lower "HOST" by decide)
  have hPath : ∀ (hs : Headers) (v x : String), (XHigressTag, v) ∈ hs →
      (XHigressTag, v) ∈ replaceHeader hs ":path" x :=
    fun hs v x hm => mem_replaceHeader_of_ne hs ":path" x _ hm
      (show lower XHigressTag ≠ lower ":path" by decide)
  split <;> split <;> first
    | exact hPath _ _ _ (hHost _ _ _ (h3 _ _))
    | exact hPath _ _ _ (h3 _ _)
    | exact hHost _ _ _ (h3 _ _)
    | exact h3 _ _

/-! ## Deployment selection and client identity (claims C1, C5) -/

/-- C1: with gray enabled, a page request with `TotalGrayWeight > 0` is routed by
`util.FilterGrayWeight` (config, previous sticky version, previous client id, client
identity) and by nothing else; a page request with `TotalGrayWeight` not above 0 by
`util.FilterGrayRule` (config, gray-key value) and by nothing else; a non-page
request by `util.GetVersion` (config, empty deployment, previous sticky version)
without either selector; the two selectors are never both consulted; and the
`X-Higress-Tag` request header is written with the `Version` of that deployment. -/
theorem C1_selector_dispatch (U : Util) (K : Consts) (grayConfig : GrayConfig) (h : Host)
    (hen : U.IsGrayEnabled grayConfig = true) :
    let isPageRequest := U.IsPageRequest ((getHeader h.reqHeaders "sec-fetch-mode").getD "")
      ((getHeader h.reqHeaders ":path").getD "")
    let inp := selectorInputs U grayConfig h.reqHeaders
    let sel := selectDeployment U grayConfig isPageRequest inp.grayKeyValue inp.preVersion
      inp.preUniqueClientId inp.uniqueClientId
    let out := (onHttpRequestHeaders U K grayConfig h).1
    (isPageRequest = true → grayConfig.TotalGrayWeight > 0 →
        sel = (U.FilterGrayWeight grayConfig inp.preVersion inp.preUniqueClientId
                inp.uniqueClientId, [Consult.filterGrayWeight]))
      ∧ (isPageRequest = true → ¬ grayConfig.TotalGrayWeight > 0 →
        sel = (U.FilterGrayRule grayConfig inp.grayKeyValue, [Consult.filterGrayRule]))
      ∧ (isPageRequest = false →
        sel = (U.GetVersion grayConfig emptyDeployment inp.preVersion false,
                [Consult.getVersion]))
      ∧ ¬ (Consult.filterGrayWeight ∈ sel.2 ∧ Consult.filterGrayRule ∈ sel.2)
      ∧ out.consulted = h.consulted ++ inp.consulted ++ sel.2
      ∧ Consult.filterGrayWeight ∉ inp.consulted ∧ Consult.filterGrayRule ∉ inp.consulted
      ∧ (XHigressTag, sel.1.Version) ∈ out.reqHeaders := by
  intro isPageRequest inp sel out
  refine ⟨?_, ?_, ?_, ?_, onHttpRequestHeaders_consulted U K grayConfig h hen, ?_, ?_,
    tag_mem_reqHeaders U K grayConfig h hen⟩
  · intro hp hw
    simp [sel, selectDeployment, hp, hw]
  · intro hp hw
    simp [sel, selectDeployment, hp, hw]
  · intro hp
    simp [sel, selectDeployment, hp]
  · simp only [sel, selectDeployment]
    split <;> try split
    all_goals simp
  · simp only [inp, selectorInputs]
    split <;> simp
  · simp only [inp, selectorInputs]
    split <;> simp

/-- A navigation request of user `u1` under the weighted configuration. -/
theorem C1_selector_witness :
    (onHttpRequestHeaders (specUtil sampleConsts) sampleConsts cfgWeighted reqPage).1.consulted
        = [Consult.filterGrayWeight]
      ∧ (XHigressTag, "gray") ∈
        (onHttpRequestHeaders (specUtil sampleConsts) sampleConsts cfgWeighted reqPage).1.reqHeaders :=
  ⟨(C1_selector_dispatch (specUtil sampleConsts) sampleConsts cfgWeighted reqPage
      (by decide)).2.2.2.2.1,
   (C1_selector_dispatch (specUtil sampleConsts) sampleConsts cfgWeighted reqPage
      (by decide)).2.2.2.2.2.2.2⟩

theorem getHeader_xff_after_removals (hs : Headers) :
    getHeader (removeHeader (removeHeader hs "Accept-Encoding") "Content-Length")
      "X-Forwarded-For" = getHeader hs "X-Forwarded-For" := by
  rw [getHeader_removeHeader_ne _ _ _ (by decide), getHeader_removeHeader_ne _ _ _ (by decide)]

theorem selectorInputs_uniqueClientId (U : Util) (grayConfig : GrayConfig) (hs : Headers) :
    (selectorInputs U grayConfig hs).uniqueClientId =
      if (selectorInputs U grayConfig hs).grayKeyValue = "" then
        U.GetRealIpFromXff ((getHeader hs "X-Forwarded-For").getD "")
      else (selectorInputs U grayConfig hs).grayKeyValue := by
  simp only [selectorInputs, getHeader_xff_after_removals]
  split <;> simp_all

theorem selectorInputs_grayKeyValue (U : Util) (grayConfig : GrayConfig) (hs : Headers) :
    (selectorInputs U grayConfig hs).grayKeyValue =
      U.GetGrayKey (U.ExtractCookieValueByKey ((getHeader hs "cookie").getD "")
        grayConfig.GrayKey) ((getHeader hs grayConfig.GrayKey).getD "")
        grayConfig.GraySubKey := by
  simp only [selectorInputs]
  split <;> rfl

theorem selectorInputs_pre (U : Util) (grayConfig : GrayConfig) (hs : Headers) :
    ((selectorInputs U grayConfig hs).preVersion,
        (selectorInputs U grayConfig hs).preUniqueClientId) =
      U.GetXPreHigressVersion ((getHeader hs "cookie").getD "") := by
  simp only [selectorInputs]
  split <;> rfl

theorem selectorInputs_consulted (U : Util) (grayConfig : GrayConfig) (hs : Headers) :
    Consult.xForwardedFor ∈ (selectorInputs U grayConfig hs).consulted ↔
      (selectorInputs U grayConfig hs).grayKeyValue = "" := by
  simp only [selectorInputs]
  split <;> simp_all

theorem selectDeployment_no_xff (U : Util) (grayConfig : GrayConfig) (isPageRequest : Bool)
    (g pv pc uc : String) :
    Consult.xForwardedFor ∉ (selectDeployment U grayConfig isPageRequest g pv pc uc).2 := by
  simp only [selectDeployment]
  split <;> try split
  all_goals simp

/-- C5: the client identity handed to the weighted selector and stored for the sticky
cookie is the resolved gray-key value (`util.GetGrayKey` of the cookie value, the
header value and `GraySubKey`) when that is non-empty and `util.GetRealIpFromXff` of
`X-Forwarded-For` otherwise; `X-Forwarded-For` is read exactly when the gray-key
value is empty; and two requests without cookie and gray-key header but with the
same `X-Forwarded-For` present the same previous version, previous client id and
identity to the selector. -/
theorem C5_client_identity (U : Util) (K : Consts) (grayConfig : GrayConfig) (h : Host)
    (hen : U.IsGrayEnabled grayConfig = true) :
    let cookies := (getHeader h.reqHeaders "cookie").getD ""
    let grayKeyValue := U.GetGrayKey (U.ExtractCookieValueByKey cookies grayConfig.GrayKey)
      ((getHeader h.reqHeaders grayConfig.GrayKey).getD "") grayConfig.GraySubKey
    let identity :=
      if grayKeyValue = "" then
        U.GetRealIpFromXff ((getHeader h.reqHeaders "X-Forwarded-For").getD "")
      else grayKeyValue
    let isPageRequest := U.IsPageRequest ((getHeader h.reqHeaders "sec-fetch-mode").getD "")
      ((getHeader h.reqHeaders ":path").getD "")
    let inp := selectorInputs U grayConfig h.reqHeaders
    let out := (onHttpRequestHeaders U K grayConfig h).1
    inp.grayKeyValue = grayKeyValue
      ∧ inp.uniqueClientId = identity
      ∧ (isPageRequest = true → grayConfig.TotalGrayWeight > 0 →
          (XHigressTag, (U.FilterGrayWeight grayConfig (U.GetXPreHigressVersion cookies).1
            (U.GetXPreHigressVersion cookies).2 identity).Version) ∈ out.reqHeaders)
      ∧ getContext out.ctx K.XUniqueClientId = some (Val.str identity)
      ∧ (∃ l, out.consulted = h.consulted ++ l
          ∧ (Consult.xForwardedFor ∈ l ↔ grayKeyValue = ""))
      ∧ ∀ h2 : Host,
          getHeader h.reqHeaders "cookie" = none → getHeader h2.reqHeaders "cookie" = none →
          getHeader h.reqHeaders grayConfig.GrayKey = none →
          getHeader h2.reqHeaders grayConfig.GrayKey = none →
          getHeader h.reqHeaders "X-Forwarded-For" = getHeader h2.reqHeaders "X-Forwarded-For" →
          (inp.preVersion, inp.preUniqueClientId, inp.uniqueClientId) =
            ((selectorInputs U grayConfig h2.reqHeaders).preVersion,
             (selectorInputs U grayConfig h2.reqHeaders).preUniqueClientId,
             (selectorInputs U grayConfig h2.reqHeaders).uniqueClientId) := by
  intro cookies grayKeyValue identity isPageRequest inp out
  have hg : inp.grayKeyValue = grayKeyValue := selectorInputs_grayKeyValue U grayConfig _
  have hid : inp.uniqueClientId = identity := by
    have := selectorInputs_uniqueClientId U grayConfig h.reqHeaders
    simp only [inp, identity, ← hg]
    exact this
  have hpre := selectorInputs_pre U grayConfig h.reqHeaders
  have hpv : inp.preVersion = (U.GetXPreHigressVersion cookies).1 := congrArg Prod.fst hpre
  have hpc : inp.preUniqueClientId = (U.GetXPreHigressVersion cookies).2 :=
    congrArg Prod.snd hpre
  refine ⟨hg, hid, ?_, ?_, ?_, ?_⟩
  · intro hp hw
    have hm := tag_mem_reqHeaders U K grayConfig h hen
    have hs : (selectDeployment U grayConfig isPageRequest inp.grayKeyValue inp.preVersion
        inp.preUniqueClientId inp.uniqueClientId).1 =
        U.FilterGrayWeight grayConfig inp.preVersion inp.preUniqueClientId
          inp.uniqueClientId := by
      simp [selectDeployment, hp, hw]
    rw [← hpv, ← hpc, ← hid, ← hs]
    exact hm
  · rw [← hid]
    simp only [out, onHttpRequestHeaders_ctx U K grayConfig h hen, getContext, List.lookup,
      beq_self_eq_true]
  · refine ⟨inp.consulted ++ (selectDeployment U grayConfig isPageRequest inp.grayKeyValue
      inp.preVersion inp.preUniqueClientId inp.uniqueClientId).2, ?_, ?_⟩
    · simp only [out, onHttpRequestHeaders_consulted U K grayConfig h hen, List.append_assoc]
    · rw [List.mem_append, ← hg]
      constructor
      · rintro (h1 | h1)
        · exact (selectorInputs_consulted U grayConfig h.reqHeaders).1 h1
        · exact absurd h1 (selectDeployment_no_xff U grayConfig _ _ _ _ _)
      · intro h1
        exact Or.inl ((selectorInputs_consulted U grayConfig h.reqHeaders).2 h1)
  · intro h2 hc1 hc2 hk1 hk2 hx
    have e1 := selectorInputs_pre U grayConfig h.reqHeaders
    have e2 := selectorInputs_pre U grayConfig h2.reqHeaders
    have g1 := selectorInputs_grayKeyValue U grayConfig h.reqHeaders
    have g2 := selectorInputs_grayKeyValue U grayConfig h2.reqHeaders
    have u1 := selectorInputs_uniqueClientId U grayConfig h.reqHeaders
    have u2 := selectorInputs_uniqueClientId U grayConfig h2.reqHeaders
    rw [hc1, hk1] at g1
    rw [hc2, hk2] at g2
    rw [hc1] at e1
    rw [hc2] at e2
    rw [g1, hx] at u1
    rw [g2] at u2
    have e3 : (selectorInputs U grayConfig h.reqHeaders).uniqueClientId =
        (selectorInputs U grayConfig h2.reqHeaders).uniqueClientId := u1.trans u2.symm
    have e4 := e1.trans e2.symm
    simp only [Prod.mk.injEq] at e4 ⊢
    exact ⟨e4.1, e4.2, e3⟩

/-- Two anonymous requests from the forwarded address `10.0.0.1`. -/
theorem C5_identity_witness :
    getContext (onHttpRequestHeaders (specUtil sampleConsts) sampleConsts cfgWeighted
        reqAnonymousA).1.ctx sampleConsts.XUniqueClientId = some (Val.str "10.0.0.1")
      ∧ (selectorInputs (specUtil sampleConsts) cfgWeighted reqAnonymousA.reqHeaders).uniqueClientId
          = (selectorInputs (specUtil sampleConsts) cfgWeighted
              reqAnonymousB.reqHeaders).uniqueClientId :=
  ⟨(C5_client_identity (specUtil sampleConsts) sampleConsts cfgWeighted reqAnonymousA
      (by decide)).2.2.2.1,
   congrArg (fun t => t.2.2)
    ((C5_client_identity (specUtil sampleConsts) sampleConsts cfgWeighted reqAnonymousA
      (by decide)).2.2.2.2.2 reqAnonymousB (by decide) (by decide) (by decide) (by decide)
      (by decide))⟩

/-! ## Path rewriting (claim C8) -/

theorem getHeader_path_before_rewrite (grayConfig : GrayConfig) (hs : Headers) (v : String) :
    getHeader (if grayConfig.Rewrite.Host != "" then
        replaceHeader (addHeader (removeHeader (removeHeader hs "Accept-Encoding")
          "Content-Length") XHigressTag v) "HOST" grayConfig.Rewrite.Host
      else addHeader (removeHeader (removeHeader hs "Accept-Encoding")
          "Content-Length") XHigressTag v) ":path" = getHeader hs ":path" := by
  split
  · rw [getHeader_replaceHeader_ne _ _ _ _ (by decide),
      getHeader_addHeader_ne _ _ _ _ (show lower XHigressTag ≠ lower ":path" by decide),
      getHeader_removeHeader_ne _ _ _ (by decide), getHeader_removeHeader_ne _ _ _ (by decide)]
  · rw [getHeader_addHeader_ne _ _ _ _ (show lower XHigressTag ≠ lower ":path" by decide),
      getHeader_removeHeader_ne _ _ _ (by decide), getHeader_removeHeader_ne _ _ _ (by decide)]

/-- C8: with the rewriters passing a path through when they are given no rule, a page
request with empty `Rewrite.Index` and a sub-resource request with empty
`Rewrite.File` keep their original `:path` value; with a non-empty applicable rule
list the `:path` of a page request becomes `util.IndexRewrite(path, version,
Rewrite.Index)` and that of a sub-resource request `util.PrefixFileRewrite(path,
version, Rewrite.File)`, `version` being the chosen deployment's `Version`; and
without any rule the `:path` header is not touched. -/
theorem C8_path_rewrite (U : Util) (K : Consts) (grayConfig : GrayConfig) (h : Host)
    (hen : U.IsGrayEnabled grayConfig = true) (hU : rewritersPassThrough U) :
    let path := (getHeader h.reqHeaders ":path").getD ""
    let isPageRequest :=
      U.IsPageRequest ((getHeader h.reqHeaders "sec-fetch-mode").getD "") path
    let inp := selectorInputs U grayConfig h.reqHeaders
    let version := (selectDeployment U grayConfig isPageRequest inp.grayKeyValue
      inp.preVersion inp.preUniqueClientId inp.uniqueClientId).1.Version
    let out := (onHttpRequestHeaders U K grayConfig h).1
    (isPageRequest = true → grayConfig.Rewrite.Index = [] →
        (getHeader out.reqHeaders ":path").getD "" = path)
      ∧ (isPageRequest = false → grayConfig.Rewrite.File = [] →
        (getHeader out.reqHeaders ":path").getD "" = path)
      ∧ (isPageRequest = true → grayConfig.Rewrite.Index ≠ [] →
        getHeader out.reqHeaders ":path" =
          some (U.IndexRewrite path version grayConfig.Rewrite.Index))
      ∧ (isPageRequest = false → grayConfig.Rewrite.File ≠ [] →
        getHeader out.reqHeaders ":path" =
          some (U.PrefixFileRewrite path version grayConfig.Rewrite.File))
      ∧ (grayConfig.Rewrite.Index = [] → grayConfig.Rewrite.File = [] →
        getHeader out.reqHeaders ":path" = getHeader h.reqHeaders ":path") := by
  intro path isPageRequest inp version out
  have hshape := onHttpRequestHeaders_reqHeaders U K grayConfig h hen
  simp only at hshape
  have hkeep := getHeader_path_before_rewrite grayConfig h.reqHeaders version
  refine ⟨?_, ?_, ?_, ?_, ?_⟩
  · intro hp hi
    replace hp : U.IsPageRequest ((getHeader h.reqHeaders "sec-fetch-mode").getD "")
      ((getHeader h.reqHeaders ":path").getD "") = true := hp
    simp only [out, hshape]
    split
    · rw [getHeader_replaceHeader_self]
      simp [hp, hi, hU.1, path]
    · rw [hkeep]
  · intro hp hf
    replace hp : U.IsPageRequest ((getHeader h.reqHeaders "sec-fetch-mode").getD "")
      ((getHeader h.reqHeaders ":path").getD "") = false := hp
    simp only [out, hshape]
    split
    · rw [getHeader_replaceHeader_self]
      simp [hp, hf, hU.2, path]
    · rw [hkeep]
  · intro hp hi
    replace hp : U.IsPageRequest ((getHeader h.reqHeaders "sec-fetch-mode").getD "")
      ((getHeader h.reqHeaders ":path").getD "") = true := hp
    have hlen : grayConfig.Rewrite.File.length > 0 ∨ grayConfig.Rewrite.Index.length > 0 :=
      Or.inr (List.length_pos.2 hi)
    simp only [out, hshape, hlen, if_true]
    rw [getHeader_replaceHeader_self]
    simp [hp, isPageRequest, path, version, inp]
  · intro hp hf
    replace hp : U.IsPageRequest ((getHeader h.reqHeaders "sec-fetch-mode").getD "")
      ((getHeader h.reqHeaders ":path").getD "") = false := hp
    have hlen : grayConfig.Rewrite.File.length > 0 ∨ grayConfig.Rewrite.Index.length > 0 :=
      Or.inl (List.length_pos.2 hf)
    simp only [out, hshape, hlen, if_true]
    rw [getHeader_replaceHeader_self]
    simp [hp, isPageRequest, path, version, inp]
  · intro hi hf
    simp only [out, hshape, hi, hf, List.length_nil, gt_iff_lt, Nat.lt_irrefl, or_self, if_false]
    exact hkeep

/-- A navigation request and a sub-resource request under the rewrite rules of
`cfgWeighted`. -/
theorem C8_path_rewrite_witness :
    getHeader (onHttpRequestHeaders (specUtil sampleConsts) sampleConsts cfgWeighted
        reqPage).1.reqHeaders ":path" = some "/gray/index.html"
      ∧ getHeader (onHttpRequestHeaders (specUtil sampleConsts) sampleConsts cfgWeighted
        reqAsset).1.reqHeaders ":path" = some "/gray/static/app.js" :=
  ⟨(C8_path_rewrite (specUtil sampleConsts) sampleConsts cfgWeighted reqPage (by decide)
      ⟨fun _ _ => rfl, fun _ _ => rfl⟩).2.2.1 (by decide) (by decide),
   (C8_path_rewrite (specUtil sampleConsts) sampleConsts cfgWeighted reqAsset (by decide)
      ⟨fun _ _ => rfl, fun _ _ => rfl⟩).2.2.2.1 (by decide) (by decide)⟩

/-! ## Response headers (claims C9, C6, C2) -/

/-- C9 as stated fails: under `cfgWeighted`, which names a fallback host, the `500`
response `resp500` loses its `Content-Disposition` header although it is not a
not-found fallback. -/
theorem C9_content_disposition_counterexample :
    getHeader resp500.respHeaders ":status" = some "500"
      ∧ getHeader resp500.respHeaders "Content-Disposition" = some "attachment"
      ∧ (∃ out, onHttpResponseHeader (specUtil sampleConsts) sampleConsts cfgWeighted resp500
            = some (out, Action.Continue)
          ∧ out.respHeaders = [(":status", "500"), ("content-type", "text/plain"),
                               ("content-length", "5")]
          ∧ getHeader out.respHeaders "Content-Disposition" = none
          ∧ out.respHeaders ≠ resp500.respHeaders) := by
  refine ⟨by decide, by decide, _, rfl, ?_⟩
  decide

/-- C9 (amended): for every configuration and every response whose `:status` is not
`200` (so every non-2xx status) or cannot be read, other than a `404` answer to a
page request with a fallback path configured, `onHttpResponseHeader` continues and
leaves the response headers as received, except that `Content-Disposition` is
removed when gray is enabled and `Rewrite.Host` is non-empty: no `Set-Cookie` is
added, `Cache-Control` is not set, and every other header keeps its value. -/
theorem C9_non_success_pass_through (U : Util) (K : Consts) (grayConfig : GrayConfig)
    (h : Host)
    (hst : getHeader h.respHeaders ":status" ≠ some "200")
    (hnf : ¬ (getHeader h.respHeaders ":status" = some "404"
      ∧ grayConfig.Rewrite.NotFound ≠ "" ∧ ctxBool h.ctx K.IsPageRequest = true)) :
    ∃ out, onHttpResponseHeader U K grayConfig h = some (out, Action.Continue)
      ∧ out.respHeaders =
          (if U.IsGrayEnabled grayConfig = true ∧ grayConfig.Rewrite.Host ≠ "" then
            removeHeader h.respHeaders "Content-Disposition"
          else h.respHeaders)
      ∧ (∀ k, lower k ≠ lower "Content-Disposition" →
          getHeader out.respHeaders k = getHeader h.respHeaders k)
      ∧ out.respBody = h.respBody ∧ out.ctx = h.ctx := by
  have key : ∃ out, onHttpResponseHeader U K grayConfig h = some (out, Action.Continue)
      ∧ out.respHeaders =
          (if U.IsGrayEnabled grayConfig = true ∧ grayConfig.Rewrite.Host ≠ "" then
            removeHeader h.respHeaders "Content-Disposition"
          else h.respHeaders)
      ∧ out.respBody = h.respBody ∧ out.ctx = h.ctx := by
    by_cases hen : U.IsGrayEnabled grayConfig = true
    · cases hs : getHeader h.respHeaders ":status" with
      | none =>
        by_cases hh : grayConfig.Rewrite.Host = "" <;>
          simp [onHttpResponseHeader, hen, hs, hh]
      | some st =>
        have hst2 : st ≠ "200" := fun e => hst (by rw [hs, e])
        by_cases h404 : st = "404"
        · subst h404
          have hnf2 : ¬ (grayConfig.Rewrite.NotFound ≠ ""
              ∧ ctxBool h.ctx K.IsPageRequest = true) := fun hc => hnf ⟨hs, hc⟩
          by_cases hh : grayConfig.Rewrite.Host = ""
          · by_cases hn : grayConfig.Rewrite.NotFound = ""
            · simp [onHttpResponseHeader, hen, hs, hh, notFoundHeaders, hn]
            · have hp : ctxBool h.ctx K.IsPageRequest = false := by
                cases hb : ctxBool h.ctx K.IsPageRequest
                · rfl
                · exact absurd ⟨hn, hb⟩ hnf2
              simp [onHttpResponseHeader, hen, hs, hh, notFoundHeaders, hn, hp]
          · by_cases hn : grayConfig.Rewrite.NotFound = ""
            · simp [onHttpResponseHeader, hen, hs, hh, notFoundHeaders, hn]
            · have hp : ctxBool h.ctx K.IsPageRequest = false := by
                cases hb : ctxBool h.ctx K.IsPageRequest
                · rfl
                · exact absurd ⟨hn, hb⟩ hnf2
              simp [onHttpResponseHeader, hen, hs, hh, notFoundHeaders, hn, hp]
        · by_cases hh : grayConfig.Rewrite.Host = "" <;>
            simp [onHttpResponseHeader, hen, hs, hh, hst2, h404]
    · simp [onHttpResponseHeader, hen]
  obtain ⟨out, h1, h2, h3, h4⟩ := key
  refine ⟨out, h1, h2, ?_, h3, h4⟩
  intro k hk
  rw [h2]
  split
  · exact getHeader_removeHeader_ne _ _ _ (fun e => hk e.symm)
  · rfl

/-- The response `resp500` under `cfgWeighted`: only `Content-Disposition` is gone. -/
theorem C9_pass_through_witness :
    ∃ out, onHttpResponseHeader (specUtil sampleConsts) sampleConsts cfgWeighted resp500
        = some (out, Action.Continue)
      ∧ out.respHeaders =
          (if (specUtil sampleConsts).IsGrayEnabled cfgWeighted = true
              ∧ cfgWeighted.Rewrite.Host ≠ "" then
            removeHeader resp500.respHeaders "Content-Disposition"
          else resp500.respHeaders)
      ∧ (∀ k, lower k ≠ lower "Content-Disposition" →
          getHeader out.respHeaders k = getHeader resp500.respHeaders k)
      ∧ out.respBody = resp500.respBody ∧ out.ctx = resp500.ctx :=
  C9_non_success_pass_through (specUtil sampleConsts) sampleConsts cfgWeighted resp500
    (by decide) (by decide)

/-- C6, the code at the failing input: under `cfgNoHost` no fallback host is configured,
yet the `404` answer to a page request is turned into a `200` `text/html` response
with the not-found flag set; the body handler, which does test the host, then
issues no fetch and the client receives the upstream's not-found body as a
successful page. -/
theorem C6_fallback_entered_without_host :
    cfgNoHost.Rewrite.Host = "" ∧ cfgNoHost.Rewrite.NotFound ≠ ""
      ∧ getHeader resp404NoHost.respHeaders ":status" = some "404"
      ∧ ctxBool resp404NoHost.ctx sampleConsts.IsPageRequest = true
      ∧ ∃ out, onHttpResponseHeader (specUtil sampleConsts) sampleConsts cfgNoHost resp404NoHost
            = some (out, Action.Continue)
          ∧ ctxBool out.ctx sampleConsts.IsNotFound = true
          ∧ out.respHeaders = [(":status", "200"), ("content-type", "text/html")]
          ∧ out.bufferBody = some true
          ∧ onHttpResponseBody (specUtil sampleConsts) sampleConsts cfgNoHost "Not Found" out
              = some ({ out with respBody := "Not Found" }, Action.Continue) := by
  refine ⟨by decide, by decide, by decide, by decide, _, rfl, ?_⟩
  decide

theorem ctx_after_request_distinct (K : Consts) (tag : String) (c : Ctx)
    (id bv v : String) (b : Bool)
    (hd1 : tag ≠ K.XPreHigressTag) (hd2 : tag ≠ K.IsPageRequest)
    (hd3 : tag ≠ K.XUniqueClientId)
    (hk1 : K.IsPageRequest ≠ K.XPreHigressTag)
    (hk2 : K.XUniqueClientId ≠ K.XPreHigressTag)
    (hk3 : K.XUniqueClientId ≠ K.IsPageRequest) :
    ctxBool ((K.XUniqueClientId, Val.str id) :: (K.IsPageRequest, Val.bool b)
        :: (tag, Val.str bv) :: (K.XPreHigressTag, Val.str v) :: c) K.IsPageRequest = b
      ∧ ctxString ((K.XUniqueClientId, Val.str id) :: (K.IsPageRequest, Val.bool b)
        :: (tag, Val.str bv) :: (K.XPreHigressTag, Val.str v) :: c) K.XPreHigressTag = some v
      ∧ ctxString ((K.XUniqueClientId, Val.str id) :: (K.IsPageRequest, Val.bool b)
        :: (tag, Val.str bv) :: (K.XPreHigressTag, Val.str v) :: c) K.XUniqueClientId = some id
      ∧ ctxString ((K.XUniqueClientId, Val.str id) :: (K.IsPageRequest, Val.bool b)
        :: (tag, Val.str bv) :: (K.XPreHigressTag, Val.str v) :: c) tag = some bv := by
  have e1 : (K.IsPageRequest == K.XUniqueClientId) = false := by
    simpa using fun e => hk3 e.symm
  have e2 : (K.XPreHigressTag == K.XUniqueClientId) = false := by
    simpa using fun e => hk2 e.symm
  have e3 : (K.XPreHigressTag == K.IsPageRequest) = false := by
    simpa using fun e => hk1 e.symm
  have e4 : (K.XPreHigressTag == tag) = false := by
    simpa using fun e => hd1 e.symm
  have e5 : (tag == K.XUniqueClientId) = false := by
    simpa using hd3
  have e6 : (tag == K.IsPageRequest) = false := by
    simpa using hd2
  simp [ctxBool, ctxString, getContext, List.lookup, e1, e2, e3, e4, e5, e6]

/-- The sticky cookies when `BackendGrayTag` differs from the context keys: for a `200`
answer to a page request or with an HTML content type, the front-end cookie pairs
the chosen deployment's `Version` with the client identity of the request phase,
and the backend cookie, added exactly when backend gray is enabled, carries its
`BackendVersion`. -/
theorem sticky_cookies_without_collision (U : Util) (K : Consts) (grayConfig : GrayConfig)
    (h : Host) (resp : Headers) (body : String)
    (hen : U.IsGrayEnabled grayConfig = true)
    (hd1 : grayConfig.BackendGrayTag ≠ K.XPreHigressTag)
    (hd2 : grayConfig.BackendGrayTag ≠ K.IsPageRequest)
    (hd3 : grayConfig.BackendGrayTag ≠ K.XUniqueClientId)
    (hk1 : K.IsPageRequest ≠ K.XPreHigressTag)
    (hk2 : K.XUniqueClientId ≠ K.XPreHigressTag)
    (hk3 : K.XUniqueClientId ≠ K.IsPageRequest)
    (hst : getHeader resp ":status" = some "200")
    (hhtml : U.IsPageRequest ((getHeader h.reqHeaders "sec-fetch-mode").getD "")
        ((getHeader h.reqHeaders ":path").getD "") = true
      ∨ hasPrefix ((getHeader resp "Content-Type").getD "") "text/html" = true) :
    let isPageRequest := U.IsPageRequest ((getHeader h.reqHeaders "sec-fetch-mode").getD "")
      ((getHeader h.reqHeaders ":path").getD "")
    let inp := selectorInputs U grayConfig h.reqHeaders
    let deployment := (selectDeployment U grayConfig isPageRequest inp.grayKeyValue
      inp.preVersion inp.preUniqueClientId inp.uniqueClientId).1
    let received :=
      if grayConfig.Rewrite.Host != "" then removeHeader resp "Content-Disposition" else resp
    ∃ out, onHttpResponseHeader U K grayConfig
        (upstreamAnswers (onHttpRequestHeaders U K grayConfig h).1 resp body)
          = some (out, Action.Continue)
      ∧ out.respHeaders =
          replaceHeader (removeHeader received "Content-Length") "Cache-Control"
              "no-cache, no-store"
            ++ [("Set-Cookie", K.XPreHigressTag ++ "=" ++ deployment.Version ++ ","
                  ++ inp.uniqueClientId ++ "; Max-Age=" ++ grayConfig.UserStickyMaxAge
                  ++ "; Path=/;")]
            ++ (if U.IsBackendGrayEnabled grayConfig then
                  [("Set-Cookie", grayConfig.BackendGrayTag ++ "=" ++ deployment.BackendVersion
                    ++ "; Max-Age=" ++ grayConfig.UserStickyMaxAge ++ "; Path=/;")]
                else []) := by
  intro isPageRequest inp deployment received
  have hctx := onHttpRequestHeaders_ctx U K grayConfig h hen
  simp only at hctx
  obtain ⟨c1, c2, c3, c4⟩ := ctx_after_request_distinct K grayConfig.BackendGrayTag h.ctx
    inp.uniqueClientId deployment.BackendVersion deployment.Version isPageRequest
    hd1 hd2 hd3 hk1 hk2 hk3
  have hcond : hasPrefix ((getHeader resp "Content-Type").getD "") "text/html" = true
      ∨ U.IsPageRequest ((getHeader h.reqHeaders "sec-fetch-mode").getD "")
        ((getHeader h.reqHeaders ":path").getD "") = true := hhtml.symm
  by_cases hh : grayConfig.Rewrite.Host = "" <;>
    by_cases hb : U.IsBackendGrayEnabled grayConfig = true <;>
    simp [onHttpResponseHeader, upstreamAnswers, hen, hst, hh, hb, stickyCookies, hctx,
      inp, deployment, received, isPageRequest, c1, c2, c3, c4, addHeader, hcond]

theorem ctx_after_request_collision (K : Consts) (tag : String) (c : Ctx)
    (id bv v : String) (b : Bool)
    (hcol : tag = K.XPreHigressTag)
    (hk1 : K.IsPageRequest ≠ K.XPreHigressTag)
    (hk2 : K.XUniqueClientId ≠ K.XPreHigressTag)
    (hk3 : K.XUniqueClientId ≠ K.IsPageRequest) :
    ctxBool ((K.XUniqueClientId, Val.str id) :: (K.IsPageRequest, Val.bool b)
        :: (tag, Val.str bv) :: (K.XPreHigressTag, Val.str v) :: c) K.IsPageRequest = b
      ∧ ctxString ((K.XUniqueClientId, Val.str id) :: (K.IsPageRequest, Val.bool b)
        :: (tag, Val.str bv) :: (K.XPreHigressTag, Val.str v) :: c) K.XPreHigressTag = some bv
      ∧ ctxString ((K.XUniqueClientId, Val.str id) :: (K.IsPageRequest, Val.bool b)
        :: (tag, Val.str bv) :: (K.XPreHigressTag, Val.str v) :: c) K.XUniqueClientId = some id
      ∧ ctxString ((K.XUniqueClientId, Val.str id) :: (K.IsPageRequest, Val.bool b)
        :: (tag, Val.str bv) :: (K.XPreHigressTag, Val.str v) :: c) tag = some bv := by
  subst hcol
  have e1 : (K.IsPageRequest == K.XUniqueClientId) = false := by
    simpa using fun e => hk3 e.symm
  have e2 : (K.XPreHigressTag == K.XUniqueClientId) = false := by
    simpa using fun e => hk2 e.symm
  have e3 : (K.XPreHigressTag == K.IsPageRequest) = false := by
    simpa using fun e => hk1 e.symm
  simp [ctxBool, ctxString, getContext, List.lookup, e1, e2, e3]

/-- C2, the code under a key collision: when `BackendGrayTag` is the name of the sticky
cookie (`config.XPreHigressTag`), the stored front-end version is overwritten in the
request context by the backend version, and for a `200` answer to a page request
the front-end sticky cookie that is added carries the deployment's `BackendVersion`
in place of its `Version`. -/
theorem C2_cookie_carries_backend_version (U : Util) (K : Consts) (grayConfig : GrayConfig)
    (h : Host) (resp : Headers) (body : String)
    (hen : U.IsGrayEnabled grayConfig = true)
    (hcol : grayConfig.BackendGrayTag = K.XPreHigressTag)
    (hk1 : K.IsPageRequest ≠ K.XPreHigressTag)
    (hk2 : K.XUniqueClientId ≠ K.XPreHigressTag)
    (hk3 : K.XUniqueClientId ≠ K.IsPageRequest)
    (hpage : U.IsPageRequest ((getHeader h.reqHeaders "sec-fetch-mode").getD "")
      ((getHeader h.reqHeaders ":path").getD "") = true)
    (hst : getHeader resp ":status" = some "200") :
    let inp := selectorInputs U grayConfig h.reqHeaders
    let deployment := (selectDeployment U grayConfig true inp.grayKeyValue inp.preVersion
      inp.preUniqueClientId inp.uniqueClientId).1
    ∃ out, onHttpResponseHeader U K grayConfig
        (upstreamAnswers (onHttpRequestHeaders U K grayConfig h).1 resp body)
          = some (out, Action.Continue)
      ∧ ("Set-Cookie", K.XPreHigressTag ++ "=" ++ deployment.BackendVersion ++ ","
          ++ inp.uniqueClientId ++ "; Max-Age=" ++ grayConfig.UserStickyMaxAge ++ "; Path=/;")
          ∈ out.respHeaders := by
  intro inp deployment
  have hctx := onHttpRequestHeaders_ctx U K grayConfig h hen
  simp only [hpage] at hctx
  obtain ⟨c1, c2, c3, c4⟩ := ctx_after_request_collision K grayConfig.BackendGrayTag h.ctx
    inp.uniqueClientId deployment.BackendVersion deployment.Version true hcol hk1 hk2 hk3
  by_cases hh : grayConfig.Rewrite.Host = "" <;>
    by_cases hb : U.IsBackendGrayEnabled grayConfig = true <;>
    simp [onHttpResponseHeader, upstreamAnswers, hen, hst, hh, hb, stickyCookies, hctx,
      inp, deployment, c1, c2, c3, c4, addHeader, replaceHeader]

/-- The navigation request of user `u1` under `cfgCollide`, answered with `200`: the
deployment has `Version` `gray` and `BackendVersion` `b-gray`, and the sticky cookie
reads `b-gray,u1`. -/
theorem C2_collision_witness :
    (∃ out, onHttpResponseHeader (specUtil sampleConsts) sampleConsts cfgCollide
        (upstreamAnswers (onHttpRequestHeaders (specUtil sampleConsts) sampleConsts cfgCollide
          reqPage).1 headers200 pageXYZ) = some (out, Action.Continue)
      ∧ ("Set-Cookie", "x-pre-higress-tag=b-gray,u1; Max-Age=172800; Path=/;")
          ∈ out.respHeaders)
      ∧ (onHttpResponseHeader (specUtil sampleConsts) sampleConsts cfgCollide
          (upstreamAnswers (onHttpRequestHeaders (specUtil sampleConsts) sampleConsts cfgCollide
            reqPage).1 headers200 pageXYZ)).map (fun r => r.1.respHeaders)
          = some [(":status", "200"), ("content-type", "text/html; charset=utf-8"),
                  ("Cache-Control", "no-cache, no-store"),
                  ("Set-Cookie", "x-pre-higress-tag=b-gray,u1; Max-Age=172800; Path=/;"),
                  ("Set-Cookie", "x-pre-higress-tag=b-gray; Max-Age=172800; Path=/;")] :=
  ⟨C2_cookie_carries_backend_version (specUtil sampleConsts) sampleConsts cfgCollide reqPage
      headers200 pageXYZ (by decide) (by decide) (by decide) (by decide) (by decide)
      (by decide) (by decide),
    by decide⟩

/-! ## Not-found fallback fetch (claim C7) -/

/-- C7 as stated fails: the completion callback does not look at the status code; a
fetch that ends with `503` replaces the buffered body `Not Found` by the body
delivered with the failure. -/
theorem C7_failed_fetch_counterexample :
    fallbackHost.respBody = "Not Found"
      ∧ (notFoundCallback 503 [(":status", "503")] "upstream unavailable" fallbackHost).respBody
          = "upstream unavailable"
      ∧ (notFoundCallback 503 [(":status", "503")] "upstream unavailable" fallbackHost).respBody
          ≠ fallbackHost.respBody
      ∧ (notFoundCallback 503 [(":status", "503")] "upstream unavailable" fallbackHost).resumes
          = fallbackHost.resumes + 1 := by
  decide

/-- C7 (amended): in the not-found fallback state `onHttpResponseBody` issues one `GET`
to `Rewrite.Host` for `Rewrite.NotFound` with every `{version}` replaced by the
front-end version, with a 1500 ms timeout, and returns `Pause`; and every
completion of the fetch, whatever its status code, replaces the response body by
the body delivered to the callback and resumes the response exactly once, leaving
the rest of the state alone. -/
theorem C7_fallback_fetch (U : Util) (K : Consts) (grayConfig : GrayConfig) (body : String)
    (h : Host) (v : String)
    (hen : U.IsGrayEnabled grayConfig = true)
    (hpage : ctxBool h.ctx K.IsPageRequest = true)
    (hnf : ctxBool h.ctx K.IsNotFound = true)
    (hhost : grayConfig.Rewrite.Host ≠ "")
    (hpath : grayConfig.Rewrite.NotFound ≠ "")
    (hv : ctxString h.ctx K.XPreHigressTag = some v) :
    onHttpResponseBody U K grayConfig body h =
        some ({ h with calls := h.calls ++
                  [{ host := grayConfig.Rewrite.Host, method := "GET",
                     path := replaceAll grayConfig.Rewrite.NotFound "\x7bversion\x7d" v,
                     timeoutMs := 1500 }] }, Action.Pause)
      ∧ ∀ (statusCode : Int) (responseHeaders : Headers) (responseBody : String) (h2 : Host),
          notFoundCallback statusCode responseHeaders responseBody h2 =
            { h2 with respBody := responseBody, resumes := h2.resumes + 1 } := by
  refine ⟨?_, fun _ _ _ _ => rfl⟩
  simp [onHttpResponseBody, hen, hpage, hnf, hhost, hpath, hv]

/-- The fallback state `fallbackHost` under `cfgWeighted`: the fetch goes to
`static.example.com` for `/base/404.html`. -/
theorem C7_fallback_fetch_witness :
    onHttpResponseBody (specUtil sampleConsts) sampleConsts cfgWeighted "Not Found" fallbackHost =
        some ({ fallbackHost with calls :=
                  [{ host := "static.example.com", method := "GET", path := "/base/404.html",
                     timeoutMs := 1500 }] }, Action.Pause) :=
  (C7_fallback_fetch (specUtil sampleConsts) sampleConsts cfgWeighted "Not Found" fallbackHost
    "base" (by decide) (by decide) (by decide) (by decide) (by decide) (by decide)).1

end FrontendGray
